import Mathlib

/-!
Verification of the i18n key extraction & catalog reconciliation tool
(`generate.py`) against its specification.

The Python source is shallowly embedded: ordered dictionaries become
association lists (`Dict`), the cursor-based scanner works over `List Char`
with a fuel parameter for the loops (fuel exhaustion degrades to
"consume to end of text", mirroring the source's unterminated-input
behaviour; the supplied fuel is large enough that exhaustion never occurs
on terminating runs), and the external collaborators (the BeautifulSoup
HTML parser, the `re` regex module, the Google translation service, file
I/O) are abstracted as explicit parameters.
-/

/-! ## Ordered dictionaries (Python `OrderedDict` as association lists) -/

/-- A Python (ordered) dict of strings: an association list, keys unique,
insertion-ordered. -/
abbrev Dict := List (String × String)

/-- Python `key in d`. -/
def containsKey (d : Dict) (k : String) : Bool :=
  d.any (fun e => e.1 == k)

/-- Python `d.get(key)` / `d[key]`. -/
def lookupKey (d : Dict) (k : String) : Option String :=
  (d.find? (fun e => e.1 == k)).map (fun e => e.2)

/-- Python `d[key] = value`: update in place if present (keeping the key's
position), else append at the end. -/
def odSet (d : Dict) (k v : String) : Dict :=
  if containsKey d k then d.map (fun e => if e.1 == k then (k, v) else e)
  else d ++ [(k, v)]

/-- Python `del d[key]` (removes the unique entry with that key). -/
def odDelete (d : Dict) (k : String) : Dict :=
  d.eraseP (fun e => e.1 == k)

/-! ## `merge_i18n_entries` (generate.py lines 108-115) -/

/-- One iteration of the loop in `merge_i18n_entries`. -/
def mergeStep (t : Dict) (kv : String × String) : Dict :=
  if kv.1 == "" then t
  else if !(containsKey t kv.1) then odSet t kv.1 kv.2
  else if lookupKey t kv.1 == some "" && kv.2 != "" then odSet t kv.1 kv.2
  else t

/-- `merge_i18n_entries(target, source)`: fold `source`'s items into
`target`. -/
def merge_i18n_entries (target source : Dict) : Dict :=
  source.foldl mergeStep target

/-! ## `extract_i18n_keys_from_html` (generate.py lines 118-143)

BeautifulSoup's HTML parsing is external; an element found by
`soup.find_all(attrs={"data-i18n": True})` is modelled as its attribute
list plus its (already concatenated) inner text. -/

/-- A markup element as seen by the extractor: its attributes and its
`tag.text` inner text. -/
structure Element where
  attrs : List (String × String)
  text : String

/-- Python `tag.attrs.get(name)`. -/
def attrGet (e : Element) (name : String) : Option String :=
  ((e.attrs.find? (fun a => a.1 == name)).map (fun a => a.2))

/-- Python `tag.attrs.get(name, dflt)`. -/
def attrGetD (e : Element) (name dflt : String) : String :=
  (attrGet e name).getD dflt

/-- Python `str.strip()` (whitespace trim at both ends), implemented over
the character list so that it computes by kernel reduction. -/
def pyStrip (s : String) : String :=
  String.mk ((((s.toList).dropWhile Char.isWhitespace).reverse.dropWhile
    Char.isWhitespace).reverse)

/-- Split a character list on a single-character separator, Python
`str.split(sep)` semantics (`"".split(sep) == [""]`). -/
def splitOnChar (sep : Char) : List Char → List (List Char)
  | [] => [[]]
  | c :: rest =>
    match splitOnChar sep rest with
    | [] => [[]]
    | g :: gs => if c == sep then [] :: g :: gs else (c :: g) :: gs

/-- Python `s.split(sep)` for a one-character separator. -/
def pySplit (s : String) (sep : Char) : List String :=
  (splitOnChar sep s.toList).map String.mk

/-- Python `token.find("]")` followed by the two slices
`token[1:pos]` and `token[pos+1:]`; `none` when `find` returns `-1`.
Only ever called on tokens that start with `[`. -/
def bracketSplit (token : String) : Option (String × String) :=
  let cs := token.toList
  match cs.dropWhile (fun c => c != ']') with
  | [] => none
  | _ :: rest =>
    some (String.mk ((cs.takeWhile (fun c => c != ']')).drop 1), String.mk rest)

/-- Python `s.startswith(p)`. -/
def listStartsWith : List Char → List Char → Bool
  | [], _ => true
  | _ :: _, [] => false
  | p :: ps, c :: cs => p == c && listStartsWith ps cs

/-- Python `s.startswith(p)` on strings. -/
def pyStartsWith (s p : String) : Bool :=
  listStartsWith p.toList s.toList

/-- The body of the token loop in `extract_i18n_keys_from_html` for one
`;`-separated token of a `data-i18n` attribute value. -/
def htmlTokenStep (tag : Element) (d : Dict) (token : String) : Dict :=
  if token == "" then d
  else if pyStartsWith token "[" then
    match bracketSplit token with
    | none => d
    | some (attributeName, key) =>
      if key != "" then odSet d key (pyStrip (attrGetD tag attributeName ""))
      else d
  else if token != "" then odSet d token (pyStrip tag.text)
  else d

/-- `extract_i18n_keys_from_html`: the elements carrying a `data-i18n`
attribute (as found by BeautifulSoup, in document order) are folded into one
dict; note the Python assigns `i18n_dict[key] = value` unconditionally, so a
later token for an existing key overwrites its value. -/
def extract_i18n_keys_from_html (tags : List Element) : Dict :=
  (tags.filter (fun t => (attrGet t "data-i18n").isSome)).foldl
    (fun d tag => ((pySplit (attrGetD tag "data-i18n" "") ';').foldl
      (htmlTokenStep tag) d)) []

/-- The key/value contribution of a single token, if any (used to state
properties of `htmlTokenStep`). -/
def tokenKV (tag : Element) (token : String) : Option (String × String) :=
  if token == "" then none
  else if pyStartsWith token "[" then
    match bracketSplit token with
    | none => none
    | some (attributeName, key) =>
      if key != "" then some (key, pyStrip (attrGetD tag attributeName ""))
      else none
  else some (token, pyStrip tag.text)

/-- `extract_i18n_keys_from_data_i18n_value` (generate.py lines 146-163):
decode a raw `data-i18n` attribute value with no element context; every
token contributes `key -> key`. -/
def dataI18nTokenStep (d : Dict) (token : String) : Dict :=
  if token == "" then d
  else if pyStartsWith token "[" then
    match bracketSplit token with
    | none => d
    | some (_, key) => if key != "" then odSet d key key else d
  else odSet d token token

/-- `extract_i18n_keys_from_data_i18n_value` on a (non-`None`) value. -/
def extract_i18n_keys_from_data_i18n_value (v : String) : Dict :=
  (pySplit v ';').foldl dataI18nTokenStep []

/-! ## Scanner primitives (generate.py lines 180-543)

The scanner works over `List Char` (Python indexes strings by code point)
with a cursor. Loops carry a fuel parameter; fuel exhaustion returns
`source.length` ("consume to end"), the same degradation the source applies
to unterminated input, and the wrappers pass fuel large enough that it is
never exhausted (every loop iteration advances the cursor). -/

/-- The backtick character. -/
def backquote : Char := Char.ofNat 96

/-- Python `source[i]`; all reads in the source are guarded by `i < len`,
the default is arbitrary. -/
def pyGet (cs : List Char) (i : Nat) : Char := cs.getD i ' '

/-- Python `source[index + 1] if index + 1 < len(source) else ""`. -/
def pyNext (cs : List Char) (i : Nat) : Option Char :=
  if i + 1 < cs.length then some (pyGet cs (i + 1)) else none

/-- Python `source[index - 1] if index > 0 else ""`. -/
def pyPrev (cs : List Char) (i : Nat) : Option Char :=
  if 0 < i then some (pyGet cs (i - 1)) else none

/-- Python slice `source[a:b]`. -/
def pySlice (cs : List Char) (a b : Nat) : List Char :=
  (cs.drop a).take (b - a)

/-- `is_identifier_char` (ASCII fragment of Python `isalnum`). -/
def is_identifier_char (c : Char) : Bool :=
  c.isAlphanum || c == '_' || c == '$'

/-- `is_identifier_char` applied to a possibly-empty previous/next char
(Python `bool("") == False`). -/
def isIdentOpt : Option Char → Bool
  | some c => is_identifier_char c
  | none => false

/-- Membership in `"0123456789abcdefABCDEF"`. -/
def isHexDigit (c : Char) : Bool :=
  c.isDigit || ('a' ≤ c && c ≤ 'f') || ('A' ≤ c && c ≤ 'F')

/-- Value of one hex digit. -/
def hexDigitVal (c : Char) : Nat :=
  if c.isDigit then c.toNat - 48
  else if 'a' ≤ c && c ≤ 'f' then c.toNat - 87
  else if 'A' ≤ c && c ≤ 'F' then c.toNat - 55
  else 0

/-- Python `int(hex_value, 16)`. -/
def hexToNat (cs : List Char) : Nat :=
  cs.foldl (fun a c => 16 * a + hexDigitVal c) 0

/-- Index of the first occurrence of `c`. -/
def findCharIdx (c : Char) : List Char → Option Nat
  | [] => none
  | x :: rest =>
    if x == c then some 0
    else match findCharIdx c rest with
      | some j => some (j + 1)
      | none => none

/-- Python `source.find(c, start)` (as `Option Nat` instead of `-1`). -/
def findCharFrom (cs : List Char) (c : Char) (start : Nat) : Option Nat :=
  match findCharIdx c (cs.drop start) with
  | some j => some (start + j)
  | none => none

/-- Index of the first occurrence of the two-character sequence `a b`. -/
def findPairIdx : List Char → Char → Char → Option Nat
  | [], _, _ => none
  | [_], _, _ => none
  | c :: d :: rest, a, b =>
    if c == a && d == b then some 0
    else match findPairIdx (d :: rest) a b with
      | some j => some (j + 1)
      | none => none

/-- The table of single-character escapes in `decode_js_escape`. -/
def simpleEscape (c : Char) : Option Char :=
  if c == 'b' then some '\x08'
  else if c == 'f' then some '\x0C'
  else if c == 'n' then some '\n'
  else if c == 'r' then some '\r'
  else if c == 't' then some '\t'
  else if c == 'v' then some '\x0B'
  else if c == '0' then some '\x00'
  else if c == '\\' then some '\\'
  else if c == '\'' then some '\''
  else if c == '"' then some '"'
  else if c == backquote then some backquote
  else if c == '$' then some '$'
  else none

/-- Python `chr`: defined for code points below 0x110000 and raising
`ValueError` above (`none` here). Python also accepts the lone surrogates
0xD800-0xDFFF, which Lean's `Char` cannot represent; `Char.ofNat` maps them
to `'\x00'`. No theorem below inspects the decoded text of a surrogate
escape, so only the raising boundary is load-bearing. -/
def pyChr (n : Nat) : Option Char :=
  if n < 1114112 then some (Char.ofNat n) else none

/-- `decode_js_escape` (generate.py lines 184-223): decode the escape whose
backslash has already been consumed, returning the decoded character and the
index just past the escape; `none` models the `ValueError` that `chr` at
lines 207/217/221 raises on an out-of-range code point. -/
def decode_js_escape (source : List Char) (index : Nat) : Option (Char × Nat) :=
  if source.length ≤ index then some ('\\', index)
  else
    let escapeChar := pyGet source index
    match simpleEscape escapeChar with
    | some d => some (d, index + 1)
    | none =>
      if escapeChar == 'x' && decide (index + 2 < source.length) &&
          (pySlice source (index + 1) (index + 3)).all isHexDigit then
        match pyChr (hexToNat (pySlice source (index + 1) (index + 3))) with
        | some ch => some (ch, index + 3)
        | none => none
      else if escapeChar == 'u' then
        if decide (index + 1 < source.length) && pyGet source (index + 1) == '{' then
          match findCharFrom source '}' (index + 2) with
          | some closePos =>
            let h := pySlice source (index + 2) closePos
            if h != [] && h.all isHexDigit then
              match pyChr (hexToNat h) with
              | some ch => some (ch, closePos + 1)
              | none => none
            else some (escapeChar, index + 1)
          | none => some (escapeChar, index + 1)
        else if index + 4 < source.length then
          let h := pySlice source (index + 1) (index + 5)
          if h.all isHexDigit then
            match pyChr (hexToNat h) with
            | some ch => some (ch, index + 5)
            | none => none
          else some (escapeChar, index + 1)
        else some (escapeChar, index + 1)
      else some (escapeChar, index + 1)

/-- The loop of `skip_string_literal` (lines 230-237); `none` propagates the
decoder's `ValueError`. -/
def skipStringLoop (fuel : Nat) (source : List Char) (quote : Char) (index : Nat) :
    Option Nat :=
  match fuel with
  | 0 => some source.length
  | fuel + 1 =>
    if index < source.length then
      let c := pyGet source index
      if c == '\\' then
        match decode_js_escape source (index + 1) with
        | some dn => skipStringLoop fuel source quote dn.2
        | none => none
      else if c == quote then some (index + 1)
      else skipStringLoop fuel source quote (index + 1)
    else some source.length

/-- `skip_string_literal` (lines 226-238). -/
def skip_string_literal (source : List Char) (start_index : Nat) : Option Nat :=
  skipStringLoop (source.length + 1) source (pyGet source start_index) (start_index + 1)

/-- `skip_line_comment` (lines 241-243). -/
def skip_line_comment (source : List Char) (start_index : Nat) : Nat :=
  match findCharFrom source '\n' start_index with
  | none => source.length
  | some p => p + 1

/-- `skip_block_comment` (lines 246-248). -/
def skip_block_comment (source : List Char) (start_index : Nat) : Nat :=
  match findPairIdx (source.drop (start_index + 2)) '*' '/' with
  | none => source.length
  | some j => start_index + 2 + j + 2

/-- The downward loop of `find_previous_significant_char` (lines 251-255);
the argument is one past the index being examined. -/
def findPrevSig (source : List Char) : Nat → Option Char
  | 0 => none
  | i + 1 =>
    if (pyGet source i).isWhitespace then findPrevSig source i
    else some (pyGet source i)

/-- `find_previous_significant_char`: Python returns `""` when no
significant character precedes, modelled as `none`. -/
def find_previous_significant_char (source : List Char) (start_index : Nat) : Option Char :=
  findPrevSig source start_index

/-- The operator/punctuation set `"({[,:;=!?&|^~<>+-*%"`. -/
def regexPrecedingChars : List Char :=
  ['(', '{', '[', ',', ':', ';', '=', '!', '?', '&', '|', '^', '~', '<', '>', '+', '-', '*', '%']

/-- `can_start_regex_literal` (lines 258-262). -/
def can_start_regex_literal (source : List Char) (start_index : Nat) : Bool :=
  match find_previous_significant_char source start_index with
  | none => true
  | some c => regexPrecedingChars.contains c

/-- The flag-consuming run after a closing `/` (lines 284-287). -/
def skipRegexFlags (source : List Char) (i : Nat) : Nat :=
  i + ((source.drop i).takeWhile Char.isAlpha).length

/-- The loop of `skip_regex_literal` (lines 269-291). -/
def skipRegexLoop (fuel : Nat) (source : List Char) (start_index index : Nat)
    (inClass : Bool) : Nat :=
  match fuel with
  | 0 => source.length
  | fuel + 1 =>
    if index < source.length then
      let c := pyGet source index
      if c == '\\' then skipRegexLoop fuel source start_index (index + 2) inClass
      else if c == '[' && !inClass then skipRegexLoop fuel source start_index (index + 1) true
      else if c == ']' && inClass then skipRegexLoop fuel source start_index (index + 1) false
      else if c == '/' && !inClass then skipRegexFlags source (index + 1)
      else if c == '\n' || c == '\r' then start_index + 1
      else skipRegexLoop fuel source start_index (index + 1) inClass
    else source.length

/-- `skip_regex_literal` (lines 265-293). -/
def skip_regex_literal (source : List Char) (start_index : Nat) : Nat :=
  skipRegexLoop (source.length + 1) source start_index (start_index + 1) false

/-- Python `str.split("-")[0]` etc. need whitespace skipping too. -/
def skipWs (cs : List Char) (i : Nat) : Nat :=
  i + ((cs.drop i).takeWhile Char.isWhitespace).length

/-! ### Template literals and expressions (mutually recursive, lines 296-380) -/

mutual

/-- The loop of `consume_js_expression` (lines 296-331): brace-balanced scan
of an interpolation body, starting with the given depth (the source starts
at depth 1); `none` propagates a decoder `ValueError` raised inside a nested
string or template literal. -/
def consumeJsExprLoop (fuel : Nat) (source : List Char) (index braceDepth : Nat) :
    Option Nat :=
  match fuel with
  | 0 => some source.length
  | fuel + 1 =>
    if index < source.length then
      let c := pyGet source index
      if c == '\'' || c == '"' then
        match skip_string_literal source index with
        | some ni => consumeJsExprLoop fuel source ni braceDepth
        | none => none
      else if c == backquote then
        match consumeTemplateLoop fuel source false (index + 1) "" 0 false [] with
        | some r => consumeJsExprLoop fuel source r.1 braceDepth
        | none => none
      else if c == '/' && pyNext source index == some '/' then
        consumeJsExprLoop fuel source (skip_line_comment source index) braceDepth
      else if c == '/' && pyNext source index == some '*' then
        consumeJsExprLoop fuel source (skip_block_comment source index) braceDepth
      else if c == '/' && can_start_regex_literal source index then
        consumeJsExprLoop fuel source (skip_regex_literal source index) braceDepth
      else if c == '{' then consumeJsExprLoop fuel source (index + 1) (braceDepth + 1)
      else if c == '}' then
        if braceDepth == 1 then some (index + 1)
        else consumeJsExprLoop fuel source (index + 1) (braceDepth - 1)
      else consumeJsExprLoop fuel source (index + 1) braceDepth
    else some source.length

/-- The loop of `consume_template_literal_with_interpolations`
(lines 341-368), the cursor already past the opening backtick. Returns
(next index, accumulated text, saw an interpolation, closed, interpolation
ranges); `none` propagates the decoder's `ValueError`. -/
def consumeTemplateLoop (fuel : Nat) (source : List Char) (replace : Bool)
    (index : Nat) (buf : String) (phIdx : Nat) (hasInterp : Bool)
    (ranges : List (Nat × Nat)) : Option (Nat × String × Bool × Bool × List (Nat × Nat)) :=
  match fuel with
  | 0 => some (source.length, buf, hasInterp, false, ranges)
  | fuel + 1 =>
    if index < source.length then
      let c := pyGet source index
      if c == '\\' then
        match decode_js_escape source (index + 1) with
        | some dn =>
          consumeTemplateLoop fuel source replace dn.2 (buf.push dn.1) phIdx hasInterp ranges
        | none => none
      else if c == backquote then some (index + 1, buf, hasInterp, true, ranges)
      else if c == '$' && pyNext source index == some '{' then
        let exprStart := index + 2
        match consumeJsExprLoop fuel source exprStart 1 with
        | some exprEnd =>
          let ranges2 :=
            if exprStart + 1 < exprEnd then ranges ++ [(exprStart, exprEnd - 1)] else ranges
          let buf2 := if replace then buf ++ "$" ++ "\x7b" ++ toString phIdx ++ "\x7d" else buf
          let ph2 := if replace then phIdx + 1 else phIdx
          consumeTemplateLoop fuel source replace exprEnd buf2 ph2 true ranges2
        | none => none
      else
        consumeTemplateLoop fuel source replace (index + 1) (buf.push c) phIdx hasInterp ranges
    else some (source.length, buf, hasInterp, false, ranges)

end

/-- Fuel passed by the wrappers to the mutual loops: every loop iteration
advances the cursor, so this is never exhausted by them. -/
def mutualFuel (source : List Char) : Nat := 2 * source.length + 8

/-- `consume_template_literal_with_interpolations` (lines 334-368). -/
def consume_template_literal_with_interpolations (source : List Char)
    (start_index : Nat) (replace : Bool) :
    Option (Nat × String × Bool × Bool × List (Nat × Nat)) :=
  consumeTemplateLoop (mutualFuel source) source replace (start_index + 1) "" 0 false []

/-- `consume_template_literal` (lines 371-375). -/
def consume_template_literal (source : List Char) (start_index : Nat) (replace : Bool) :
    Option (Nat × String × Bool × Bool) :=
  match consume_template_literal_with_interpolations source start_index replace with
  | some r => some (r.1, r.2.1, r.2.2.1, r.2.2.2.1)
  | none => none

/-- `skip_template_literal` (lines 378-380). -/
def skip_template_literal (source : List Char) (start_index : Nat) : Option Nat :=
  match consume_template_literal source start_index false with
  | some r => some r.1
  | none => none

/-- `consume_js_expression` (lines 296-331). -/
def consume_js_expression (source : List Char) (start_index : Nat) : Option Nat :=
  consumeJsExprLoop (mutualFuel source) source start_index 1

/-- The loop of `parse_js_string_literal` (lines 392-404). The outer `Option`
is the exception monad (`none` = `ValueError` from the decoder); the inner
one is the function's Python result (`none` = Python `None`). -/
def parseStrLoop (fuel : Nat) (cs : List Char) (quote : Char) (index : Nat)
    (acc : String) : Option (Option String) :=
  match fuel with
  | 0 => some none
  | fuel + 1 =>
    if index < cs.length then
      let c := pyGet cs index
      if c == '\\' then
        match decode_js_escape cs (index + 1) with
        | some dn => parseStrLoop fuel cs quote dn.2 (acc.push dn.1)
        | none => none
      else if c == quote then
        if pyStrip (String.mk (cs.drop (index + 1))) != "" then some none
        else some (some acc)
      else parseStrLoop fuel cs quote (index + 1) (acc.push c)
    else some none

/-- `parse_js_string_literal` (lines 383-406). -/
def parse_js_string_literal (value : String) : Option (Option String) :=
  let stripped := (pyStrip value).toList
  if stripped.length < 2 then some none
  else if !(pyGet stripped 0 == '\'' || pyGet stripped 0 == '"') then some none
  else parseStrLoop (stripped.length + 1) stripped (pyGet stripped 0) 1 ""

/-- `parse_static_js_value` (lines 409-423): a quoted string literal or an
interpolation-free complete template literal; anything else is not
statically known (`some none`); a decoder `ValueError` escapes (`none`). -/
def parse_static_js_value (value : String) : Option (Option String) :=
  match parse_js_string_literal value with
  | none => none
  | some (some s) => some (some s)
  | some none =>
    let stripped := pyStrip value
    if stripped == "" then some none
    else if pyGet stripped.toList 0 != backquote then some none
    else
      match consume_template_literal_with_interpolations stripped.toList 0 false with
      | none => none
      | some r =>
        if !r.2.2.2.1 || r.1 != stripped.toList.length || r.2.2.1 then some none
        else some (some r.2.1)

/-- The loop of `parse_js_call_arguments` (lines 434-487); `none` propagates
a decoder `ValueError` from a nested string or template literal. -/
def parseCallArgsLoop (fuel : Nat) (source : List Char) (index argStart : Nat)
    (parenDepth braceDepth bracketDepth : Nat) (args : List String) :
    Option (Nat × Option (List String)) :=
  match fuel with
  | 0 => some (source.length, none)
  | fuel + 1 =>
    if index < source.length then
      let c := pyGet source index
      if c == '\'' || c == '"' then
        match skip_string_literal source index with
        | some ni =>
          parseCallArgsLoop fuel source ni argStart parenDepth braceDepth bracketDepth args
        | none => none
      else if c == backquote then
        match skip_template_literal source index with
        | some ni =>
          parseCallArgsLoop fuel source ni argStart parenDepth braceDepth bracketDepth args
        | none => none
      else if c == '/' && pyNext source index == some '/' then
        parseCallArgsLoop fuel source (skip_line_comment source index) argStart
          parenDepth braceDepth bracketDepth args
      else if c == '/' && pyNext source index == some '*' then
        parseCallArgsLoop fuel source (skip_block_comment source index) argStart
          parenDepth braceDepth bracketDepth args
      else if c == '/' && can_start_regex_literal source index then
        parseCallArgsLoop fuel source (skip_regex_literal source index) argStart
          parenDepth braceDepth bracketDepth args
      else if c == '(' then
        parseCallArgsLoop fuel source (index + 1) argStart (parenDepth + 1)
          braceDepth bracketDepth args
      else if c == ')' then
        if parenDepth == 1 then
          some (index + 1, some (args ++ [String.mk (pySlice source argStart index)]))
        else
          parseCallArgsLoop fuel source (index + 1) argStart (parenDepth - 1)
            braceDepth bracketDepth args
      else if c == '{' then
        parseCallArgsLoop fuel source (index + 1) argStart parenDepth (braceDepth + 1)
          bracketDepth args
      else if c == '}' then
        parseCallArgsLoop fuel source (index + 1) argStart parenDepth (braceDepth - 1)
          bracketDepth args
      else if c == '[' then
        parseCallArgsLoop fuel source (index + 1) argStart parenDepth braceDepth
          (bracketDepth + 1) args
      else if c == ']' then
        parseCallArgsLoop fuel source (index + 1) argStart parenDepth braceDepth
          (bracketDepth - 1) args
      else if c == ',' && parenDepth == 1 && braceDepth == 0 && bracketDepth == 0 then
        parseCallArgsLoop fuel source (index + 1) (index + 1) parenDepth braceDepth
          bracketDepth (args ++ [String.mk (pySlice source argStart index)])
      else
        parseCallArgsLoop fuel source (index + 1) argStart parenDepth braceDepth
          bracketDepth args
    else some (source.length, none)

/-- `parse_js_call_arguments` (lines 426-487): split a call's argument list
at top-level commas; the inner `none` means the parenthesis never closes,
the outer one a decoder `ValueError`. -/
def parse_js_call_arguments (source : List Char) (open_paren_index : Nat) :
    Option (Nat × Option (List String)) :=
  parseCallArgsLoop (source.length + 1) source (open_paren_index + 1)
    (open_paren_index + 1) 1 0 0 []

/-- The loop of `parse_js_assignment_expression` (lines 496-543). -/
def parseAssignLoop (fuel : Nat) (source : List Char) (start_index index : Nat)
    (parenDepth braceDepth bracketDepth : Nat) : Option (Nat × String) :=
  match fuel with
  | 0 => some (source.length, String.mk (source.drop start_index))
  | fuel + 1 =>
    if index < source.length then
      let c := pyGet source index
      if c == '\'' || c == '"' then
        match skip_string_literal source index with
        | some ni =>
          parseAssignLoop fuel source start_index ni parenDepth braceDepth bracketDepth
        | none => none
      else if c == backquote then
        match skip_template_literal source index with
        | some ni =>
          parseAssignLoop fuel source start_index ni parenDepth braceDepth bracketDepth
        | none => none
      else if c == '/' && pyNext source index == some '/' then
        parseAssignLoop fuel source start_index (skip_line_comment source index)
          parenDepth braceDepth bracketDepth
      else if c == '/' && pyNext source index == some '*' then
        parseAssignLoop fuel source start_index (skip_block_comment source index)
          parenDepth braceDepth bracketDepth
      else if c == '/' && can_start_regex_literal source index then
        parseAssignLoop fuel source start_index (skip_regex_literal source index)
          parenDepth braceDepth bracketDepth
      else if c == '(' then
        parseAssignLoop fuel source start_index (index + 1) (parenDepth + 1)
          braceDepth bracketDepth
      else if c == ')' then
        parseAssignLoop fuel source start_index (index + 1) (parenDepth - 1)
          braceDepth bracketDepth
      else if c == '{' then
        parseAssignLoop fuel source start_index (index + 1) parenDepth (braceDepth + 1)
          bracketDepth
      else if c == '}' then
        parseAssignLoop fuel source start_index (index + 1) parenDepth (braceDepth - 1)
          bracketDepth
      else if c == '[' then
        parseAssignLoop fuel source start_index (index + 1) parenDepth braceDepth
          (bracketDepth + 1)
      else if c == ']' then
        parseAssignLoop fuel source start_index (index + 1) parenDepth braceDepth
          (bracketDepth - 1)
      else if c == ';' && parenDepth == 0 && braceDepth == 0 && bracketDepth == 0 then
        some (index + 1, String.mk (pySlice source start_index index))
      else
        parseAssignLoop fuel source start_index (index + 1) parenDepth braceDepth
          bracketDepth
    else some (source.length, String.mk (source.drop start_index))

/-- `parse_js_assignment_expression` (lines 490-543); `none` propagates a
decoder `ValueError`. -/
def parse_js_assignment_expression (source : List Char) (start_index : Nat) :
    Option (Nat × String) :=
  parseAssignLoop (source.length + 1) source start_index start_index 0 0 0

/-! ## `extract_i18n_keys_from_scripts` (generate.py lines 578-752)

`has_translation_t_call_binding` and `is_noise_t_call_key` are built on the
external `re` regex module, and `extract_i18n_keys_from_markup_text` /
`extract_i18n_keys_from_html` take raw markup strings through the external
BeautifulSoup parser (plus `re`), so those four helpers enter the model as
explicit function parameters (`bindingOf`, `noiseOf`, `markupOf`, `htmlOf`);
everything else is embedded directly. -/

/-- Python `sub in s` (substring test). -/
def listHasInfix (pat : List Char) : List Char → Bool
  | [] => listStartsWith pat []
  | c :: rest => listStartsWith pat (c :: rest) || listHasInfix pat rest

/-- Python `sub in s` on strings. -/
def pyIn (sub s : String) : Bool := listHasInfix sub.toList s.toList

/-- Python `s.startswith(p, i)`. -/
def startsWithAt (cs : List Char) (p : String) (i : Nat) : Bool :=
  listStartsWith p.toList (cs.drop i)

/-- Python `a or b` on optional strings (`None` and `""` are falsy). -/
def pyOrOpt (a b : Option String) : Option String :=
  match a with
  | some s => if s != "" then some s else b
  | none => b

/-- The bare-`t` branch (lines 616-642): `t` followed by a backtick template
(key = placeholder-substituted text), or - when the script binds `t` to a
translation function - `t(...)` with a static, non-noise first argument.
Returns `some none` when the branch falls through to the later checks and
`none` when a decoder `ValueError` escapes. -/
def tryTBranch (noiseOf : String → Bool) (allowT : Bool) (cs : List Char)
    (i : Nat) (d : Dict) : Option (Option (Nat × Dict)) :=
  if startsWithAt cs "t" i && !(isIdentOpt (pyPrev cs i)) && pyPrev cs i != some '.' &&
      (decide (cs.length ≤ i + 1) || !(is_identifier_char (pyGet cs (i + 1)))) then
    let w := skipWs cs (i + 1)
    if w < cs.length && pyGet cs w == backquote then
      match consume_template_literal cs w true with
      | none => none
      | some r =>
        some (some (r.1, if r.2.2.2 && r.2.1 != "" then odSet d r.2.1 r.2.1 else d))
    else if allowT && w < cs.length && pyGet cs w == '(' then
      match parse_js_call_arguments cs w with
      | none => none
      | some r =>
        match r.2 with
        | some (a0 :: _) =>
          match parse_static_js_value a0 with
          | none => none
          | some (some tv) =>
            some (some (r.1, if tv != "" && !(noiseOf tv) then odSet d tv tv else d))
          | some none => some (some (r.1, d))
        | _ => some (some (r.1, d))
    else some none
  else some none

/-- The `translate(...)` branch (lines 644-664): argument 0 is the default
text, argument 1 (if present) an explicit key; the final key is the explicit
key if truthy, else the text. -/
def tryTranslateBranch (cs : List Char) (i : Nat) (d : Dict) :
    Option (Option (Nat × Dict)) :=
  if startsWithAt cs "translate" i && !(isIdentOpt (pyPrev cs i)) &&
      pyPrev cs i != some '.' &&
      (decide (cs.length ≤ i + 9) || !(is_identifier_char (pyGet cs (i + 9)))) then
    let w := skipWs cs (i + 9)
    if w < cs.length && pyGet cs w == '(' then
      match parse_js_call_arguments cs w with
      | none => none
      | some r =>
        match r.2 with
        | some (a0 :: restArgs) =>
          match parse_static_js_value a0 with
          | none => none
          | some textValue =>
            match (match restArgs with
              | a1 :: _ => parse_static_js_value a1
              | [] => some none) with
            | none => none
            | some keyValue =>
              let d2 := match pyOrOpt keyValue textValue with
                | some fk =>
                  if fk != "" then
                    odSet d fk (match textValue with | some t => t | none => fk)
                  else d
                | none => d
              some (some (r.1, d2))
        | _ => some (some (r.1, d))
    else some none
  else some none

/-- The `applyLocale(...)` branch (lines 666-686); only advances when an
extraction actually happened. -/
def tryApplyLocaleBranch (htmlOf : String → Dict) (cs : List Char) (i : Nat)
    (d : Dict) : Option (Option (Nat × Dict)) :=
  if startsWithAt cs "applyLocale" i && !(isIdentOpt (pyPrev cs i)) &&
      (decide (cs.length ≤ i + 11) || !(is_identifier_char (pyGet cs (i + 11)))) then
    let w := skipWs cs (i + 11)
    if w < cs.length && pyGet cs w == '(' then
      match parse_js_call_arguments cs w with
      | none => none
      | some r =>
        match r.2 with
        | some (a0 :: _) =>
          match parse_static_js_value a0 with
          | none => none
          | some (some hv) =>
            if hv != "" && pyIn "data-i18n" hv then
              some (some (r.1, merge_i18n_entries d (htmlOf hv)))
            else some none
          | some none => some none
        | _ => some none
    else some none
  else some none

/-- The `attr(...)` / `setAttribute(...)` branches (lines 688-730): both
require a static `"data-i18n"` first argument and a static second argument,
decoded through the token-list decoder. -/
def tryAttrLikeBranch (word : String) (cs : List Char) (i : Nat) (d : Dict) :
    Option (Option (Nat × Dict)) :=
  if startsWithAt cs word i && !(isIdentOpt (pyPrev cs i)) &&
      (decide (cs.length ≤ i + word.length) ||
        !(is_identifier_char (pyGet cs (i + word.length)))) then
    let w := skipWs cs (i + word.length)
    if w < cs.length && pyGet cs w == '(' then
      match parse_js_call_arguments cs w with
      | none => none
      | some r =>
        match r.2 with
        | some (a0 :: a1 :: _) =>
          match parse_static_js_value a0 with
          | none => none
          | some v0 =>
            if v0 == some "data-i18n" then
              match parse_static_js_value a1 with
              | none => none
              | some (some iv) =>
                if iv != "" then
                  some (some (r.1,
                    merge_i18n_entries d (extract_i18n_keys_from_data_i18n_value iv)))
                else some none
              | some none => some none
            else some none
        | _ => some none
    else some none
  else some none

/-- The `dataset.i18n = <expr>` branch (lines 732-748). -/
def tryDatasetBranch (cs : List Char) (i : Nat) (d : Dict) :
    Option (Option (Nat × Dict)) :=
  if startsWithAt cs "dataset.i18n" i && !(isIdentOpt (pyPrev cs i)) then
    let w := skipWs cs (i + 12)
    if w < cs.length && pyGet cs w == '=' then
      let es := skipWs cs (w + 1)
      match parse_js_assignment_expression cs es with
      | none => none
      | some r =>
        match parse_static_js_value r.2 with
        | none => none
        | some (some iv) =>
          if iv != "" then
            some (some (r.1, merge_i18n_entries d (extract_i18n_keys_from_data_i18n_value iv)))
          else some none
        | some none => some none
    else some none
  else some none

mutual

/-- The scanning loop of `extract_i18n_keys_from_scripts` (lines 583-751):
literal/comment/regex skipping first, then the call-pattern branches in
source order, else advance one character. -/
def extractScriptsLoop (fuel : Nat) (htmlOf markupOf : String → Dict)
    (bindingOf noiseOf : String → Bool) (cs : List Char) (allowT : Bool)
    (index : Nat) (d : Dict) : Option Dict :=
  match fuel with
  | 0 => some d
  | fuel + 1 =>
    if index < cs.length then
      let c := pyGet cs index
      if c == '/' && pyNext cs index == some '/' then
        extractScriptsLoop fuel htmlOf markupOf bindingOf noiseOf cs allowT
          (skip_line_comment cs index) d
      else if c == '/' && pyNext cs index == some '*' then
        extractScriptsLoop fuel htmlOf markupOf bindingOf noiseOf cs allowT
          (skip_block_comment cs index) d
      else if c == '\'' || c == '"' then
        match skip_string_literal cs index with
        | none => none
        | some ni =>
          match parse_js_string_literal (String.mk (pySlice cs index ni)) with
          | none => none
          | some sv =>
            let d2 := match sv with
              | some s =>
                if s != "" && pyIn "data-i18n" s then merge_i18n_entries d (markupOf s)
                else d
              | none => d
            extractScriptsLoop fuel htmlOf markupOf bindingOf noiseOf cs allowT ni d2
      else if c == backquote then
        match consume_template_literal_with_interpolations cs index true with
        | none => none
        | some r =>
          let d2 :=
            if r.2.2.2.1 && pyIn "data-i18n" r.2.1 then merge_i18n_entries d (markupOf r.2.1)
            else d
          match r.2.2.2.2.foldl (fun dd ab =>
            match dd with
            | none => none
            | some dd2 =>
              let sub := pySlice cs ab.1 ab.2
              if sub != [] then
                match extractScriptsCore fuel htmlOf markupOf bindingOf noiseOf
                    (String.mk sub) with
                | none => none
                | some e => some (merge_i18n_entries dd2 e)
              else some dd2) (some d2) with
          | none => none
          | some d3 =>
            extractScriptsLoop fuel htmlOf markupOf bindingOf noiseOf cs allowT r.1 d3
      else if c == '/' && can_start_regex_literal cs index then
        extractScriptsLoop fuel htmlOf markupOf bindingOf noiseOf cs allowT
          (skip_regex_literal cs index) d
      else
        match tryTBranch noiseOf allowT cs index d with
        | none => none
        | some (some nd) =>
          extractScriptsLoop fuel htmlOf markupOf bindingOf noiseOf cs allowT nd.1 nd.2
        | some none =>
          match tryTranslateBranch cs index d with
          | none => none
          | some (some nd) =>
            extractScriptsLoop fuel htmlOf markupOf bindingOf noiseOf cs allowT nd.1 nd.2
          | some none =>
            match tryApplyLocaleBranch htmlOf cs index d with
            | none => none
            | some (some nd) =>
              extractScriptsLoop fuel htmlOf markupOf bindingOf noiseOf cs allowT nd.1 nd.2
            | some none =>
              match tryAttrLikeBranch "attr" cs index d with
              | none => none
              | some (some nd) =>
                extractScriptsLoop fuel htmlOf markupOf bindingOf noiseOf cs allowT nd.1 nd.2
              | some none =>
                match tryAttrLikeBranch "setAttribute" cs index d with
                | none => none
                | some (some nd) =>
                  extractScriptsLoop fuel htmlOf markupOf bindingOf noiseOf cs allowT nd.1 nd.2
                | some none =>
                  match tryDatasetBranch cs index d with
                  | none => none
                  | some (some nd) =>
                    extractScriptsLoop fuel htmlOf markupOf bindingOf noiseOf cs allowT
                      nd.1 nd.2
                  | some none =>
                    extractScriptsLoop fuel htmlOf markupOf bindingOf noiseOf cs allowT
                      (index + 1) d
    else some d

/-- One invocation of `extract_i18n_keys_from_scripts` (the function also
recurses into itself on each interpolation's inner expression text). -/
def extractScriptsCore (fuel : Nat) (htmlOf markupOf : String → Dict)
    (bindingOf noiseOf : String → Bool) (content : String) : Option Dict :=
  match fuel with
  | 0 => some []
  | fuel + 1 =>
    extractScriptsLoop fuel htmlOf markupOf bindingOf noiseOf content.toList
      (bindingOf content) 0 []

end

/-- `extract_i18n_keys_from_scripts` (lines 578-752), with the externally
computed helpers passed in; `none` models the `ValueError` that escapes the
whole extraction when a decoded escape denotes an out-of-range code point. -/
def extract_i18n_keys_from_scripts (htmlOf markupOf : String → Dict)
    (bindingOf noiseOf : String → Bool) (script_content : String) : Option Dict :=
  extractScriptsCore ((script_content.length + 2) * (script_content.length + 2))
    htmlOf markupOf bindingOf noiseOf script_content

/-! ## `update_json` (generate.py lines 800-907) and the `__main__` driver

The catalog is the `data` ordered dict; the Google translation service is an
explicit deterministic `Translator` parameter whose outcome is `ok`, an
exception whose text contains `"No support for the provided language"`
(`unsupported`), or any other exception (`failure`). The `try` at line 834
wraps the whole add loop, so an exception escaping the nested handlers
increments the error counter once and abandons the remaining corpus keys,
after which the extra-key pass, the optional sort and the file write still
run. -/

/-- Python `s.upper()` (ASCII fragment). -/
def pyToUpper (s : String) : String := String.mk (s.toList.map Char.toUpper)

/-- Python `s.lower()` / the ASCII fragment of `str.casefold()`. -/
def pyToLower (s : String) : String := String.mk (s.toList.map Char.toLower)

/-- Line 835: `json_file.replace("\\", "/").split("/")[-1].split(".")[0]`. -/
def languageOf (json_file : String) : String :=
  let normalized := String.mk (json_file.toList.map (fun c => if c == '\\' then '/' else c))
  ((pySplit ((pySplit normalized '/').getLastD "") '.').headD "")

/-- Line 851: `language.split("-")[0] + "-" + language.split("-")[1].upper()`;
`none` models the `IndexError` raised when the code has no `-`. -/
def renormalizeLanguage (language : String) : Option String :=
  match pySplit language '-' with
  | p0 :: p1 :: _ => some (p0 ++ "-" ++ pyToUpper p1)
  | _ => none

/-- The four policy flags. -/
structure Flags where
  sort_keys : Bool
  auto_remove : Bool
  auto_add : Bool
  auto_translate : Bool
deriving DecidableEq

/-- The per-catalog counters of `update_json` (line 825). -/
structure Counters where
  nf : Nat
  add : Nat
  skip : Nat
  extra : Nat
  remove : Nat
  err : Nat
deriving DecidableEq

/-- All counters zero. -/
def counters0 : Counters := ⟨0, 0, 0, 0, 0, 0⟩

/-- Outcome of one call to the external translation service. -/
inductive TransResult where
  | ok (translation : String)
  | unsupported
  | failure
deriving DecidableEq

/-- The external translation capability, as a deterministic function of
(target locale code, source text). -/
abbrev Translator := String → String → TransResult

/-- State threaded through the add loop: the catalog, the counters, and the
`language` variable (which the fallback renormalizations mutate for the rest
of the run). -/
structure AddState where
  data : Dict
  counters : Counters
  language : String
deriving DecidableEq

/-- One iteration of the add loop (lines 836-865) for one corpus key. The
second component is `true` when an exception escapes to the handler at line
867 (translation failing on the third attempt, or the renormalization's
`IndexError`), aborting the rest of the loop. A `failure` outcome of the
first or second attempt is swallowed by its `except` block (which only
handles the `"No support"` text) and the loop continues. -/
def addKeyStep (fl : Flags) (tr : Translator) (st : AddState) (kv : String × String) :
    AddState × Bool :=
  if containsKey st.data kv.1 then (st, false)
  else
    let c1 : Counters := { st.counters with nf := st.counters.nf + 1 }
    let c2 : Counters := if kv.2 == "" then { c1 with skip := c1.skip + 1 } else c1
    if fl.auto_add && kv.2 != "" then
      if fl.auto_translate then
        match tr st.language kv.2 with
        | .ok t =>
          ({ st with data := odSet st.data kv.1 t,
                     counters := { c2 with add := c2.add + 1 } }, false)
        | .failure => ({ st with counters := c2 }, false)
        | .unsupported =>
          match renormalizeLanguage st.language with
          | none => ({ st with counters := c2 }, true)
          | some lang2 =>
            match tr lang2 kv.2 with
            | .ok t => (⟨odSet st.data kv.1 t, { c2 with add := c2.add + 1 }, lang2⟩, false)
            | .failure => (⟨st.data, c2, lang2⟩, false)
            | .unsupported =>
              let lang3 := (pySplit lang2 '-').headD ""
              match tr lang3 kv.2 with
              | .ok t => (⟨odSet st.data kv.1 t, { c2 with add := c2.add + 1 }, lang3⟩, false)
              | _ => (⟨st.data, c2, lang3⟩, true)
      else
        ({ st with data := odSet st.data kv.1 kv.2,
                   counters := { c2 with add := c2.add + 1 } }, false)
    else ({ st with counters := c2 }, false)

/-- The add loop over the corpus keys, stopped early by an escaping
exception. -/
def addPassGo (fl : Flags) (tr : Translator) :
    List (String × String) → AddState → AddState × Bool
  | [], st => (st, false)
  | kv :: rest, st =>
    match addKeyStep fl tr st kv with
    | (st2, true) => (st2, true)
    | (st2, false) => addPassGo fl tr rest st2

/-- The add loop including the `except` handler at lines 867-869 (one error
counted when an exception escaped). -/
def addPass (fl : Flags) (tr : Translator) (corpus : Dict) (st : AddState) : AddState :=
  match addPassGo fl tr corpus st with
  | (st2, true) => { st2 with counters := { st2.counters with err := st2.counters.err + 1 } }
  | (st2, false) => st2

/-- One iteration of the extra-key loop (lines 871-878). -/
def removeKeyStep (fl : Flags) (corpus : Dict) (st : Dict × Counters) (key : String) :
    Dict × Counters :=
  if containsKey corpus key then st
  else
    let c : Counters := { st.2 with extra := st.2.extra + 1 }
    if fl.auto_remove then (odDelete st.1 key, { c with remove := c.remove + 1 })
    else (st.1, c)

/-- The extra-key loop: iterates over a snapshot of the catalog's keys
(Python `list(data.keys())`), deleting the ones absent from the corpus when
`auto_remove` is set. -/
def removePass (fl : Flags) (corpus : Dict) (d : Dict) (c : Counters) : Dict × Counters :=
  (d.map (fun e => e.1)).foldl (removeKeyStep fl corpus) (d, c)

/-! ### The sort policy (lines 880-891) -/

/-- `sys.maxsize`. -/
def pyMaxsize : Nat := 2 ^ 63 - 1

/-- The `key_source_positions` mapping: key to (normalized source path,
ordinal of first appearance in that file). -/
abbrev Positions := List (String × String × Nat)

/-- `key_source_positions.get(key, ("", sys.maxsize))`. -/
def positionOf (positions : Positions) (key : String) : String × Nat :=
  ((positions.find? (fun p => p.1 == key)).map (fun p => p.2)).getD ("", pyMaxsize)

/-- The sort key tuple of line 883-889: `(0 if key in corpus else 1, path or
"", ordinal or maxsize, key.casefold(), key)`. -/
def sortKeyOf (corpus : Dict) (positions : Positions) (key : String) :
    Nat × String × Nat × String × String :=
  (if containsKey corpus key then 0 else 1,
   (positionOf positions key).1, (positionOf positions key).2, pyToLower key, key)

/-- Code-point lexicographic `<` on character lists (Python string `<`). -/
def charListLt : List Char → List Char → Bool
  | [], [] => false
  | [], _ :: _ => true
  | _ :: _, [] => false
  | a :: as, b :: bs => if a < b then true else if b < a then false else charListLt as bs

/-- Python string `<`. -/
def pyStrLt (a b : String) : Bool := charListLt a.toList b.toList

/-- Two-way lexicographic combinator: strictly smaller first component wins,
otherwise defer. -/
def lexCombo {α : Type} (lt : α → α → Bool) (a b : α) (rest : Bool) : Bool :=
  if lt a b then true else if lt b a then false else rest

/-- `<` on `Nat` as a `Bool`. -/
def natLtB (a b : Nat) : Bool := decide (a < b)

/-- Non-strict lexicographic comparison of two sort-key tuples (Python tuple
`<=`). -/
def tupLe (x y : Nat × String × Nat × String × String) : Bool :=
  lexCombo natLtB x.1 y.1 <|
    lexCombo pyStrLt x.2.1 y.2.1 <|
      lexCombo natLtB x.2.2.1 y.2.2.1 <|
        lexCombo pyStrLt x.2.2.2.1 y.2.2.2.1 <|
          !(pyStrLt y.2.2.2.2 x.2.2.2.2)

/-- Comparison of two catalog entries by their keys' sort tuples. Python's
(stable) `sorted` on the catalog's unique keys, followed by rebuilding the
dict, is the stable insertion sort of the entry list under this relation. -/
def entryLeB (corpus : Dict) (positions : Positions) (a b : String × String) : Bool :=
  tupLe (sortKeyOf corpus positions a.1) (sortKeyOf corpus positions b.1)

/-- `entryLeB` as a relation. -/
def entryLe (corpus : Dict) (positions : Positions) (a b : String × String) : Prop :=
  entryLeB corpus positions a b = true

instance entryLeDecidable (corpus : Dict) (positions : Positions) :
    DecidableRel (entryLe corpus positions) :=
  fun a b => inferInstanceAs (Decidable (entryLeB corpus positions a b = true))

/-- The result of one `update_json` run: the catalog it wrote and its
counters. -/
structure UpdateResult where
  data : Dict
  counters : Counters
deriving DecidableEq

/-- `update_json` on an already-loaded catalog: the add pass over the corpus
(with its exception handler), the extra-key pass, the optional re-sort, in
that order; the result is then serialized over the prior file. -/
def update_json (json_file : String) (i18n_dict : Dict) (positions : Positions)
    (fl : Flags) (tr : Translator) (data : Dict) : UpdateResult :=
  let st := addPass fl tr i18n_dict ⟨data, counters0, languageOf json_file⟩
  let rc := removePass fl i18n_dict st.data st.counters
  let d2 :=
    if fl.sort_keys then List.insertionSort (entryLe i18n_dict positions) rc.1 else rc.1
  ⟨d2, rc.2⟩

/-! ### Serialization (lines 893-895): `json.dump(data, ensure_ascii=False,
indent=4)` plus a trailing newline. -/

/-- Lowercase hex digits `0`-`9` then `a`-`f`. -/
def hexDigits : List Char :=
  (List.range 16).map (fun n => Char.ofNat (if n < 10 then 48 + n else 87 + n))

/-- Four-digit hex rendering for control-character escapes. -/
def hex4 (n : Nat) : String :=
  String.mk [hexDigits.getD (n / 4096 % 16) '0', hexDigits.getD (n / 256 % 16) '0',
    hexDigits.getD (n / 16 % 16) '0', hexDigits.getD (n % 16) '0']

/-- JSON string escaping with `ensure_ascii=False`. -/
def jsonEscapeChar (c : Char) : String :=
  if c == '"' then "\\\""
  else if c == '\\' then "\\\\"
  else if c == '\n' then "\\n"
  else if c == '\r' then "\\r"
  else if c == '\t' then "\\t"
  else if c == '\x08' then "\\b"
  else if c == '\x0C' then "\\f"
  else if c.toNat < 32 then "\\u" ++ hex4 c.toNat
  else String.singleton c

/-- A JSON string literal. -/
def jsonQuote (s : String) : String :=
  "\"" ++ (s.toList.map jsonEscapeChar).foldl (fun a b => a ++ b) "" ++ "\""

/-- Join with a separator. -/
def joinWith (sep : String) : List String → String
  | [] => ""
  | [s] => s
  | s :: rest => s ++ sep ++ joinWith sep rest

/-- The bytes `update_json` writes: `json.dump(..., ensure_ascii=False,
indent=4)` followed by `"\n"`. -/
def serializeCatalog (d : Dict) : String :=
  (if d.isEmpty then "\x7b\x7d"
   else
     "\x7b\n" ++
       joinWith ",\n" (d.map (fun e => "    " ++ jsonQuote e.1 ++ ": " ++ jsonQuote e.2)) ++
       "\n\x7d") ++ "\n"

/-! ### Catalog loading and the driver loop (lines 818-819 and 976-986)

`json.load` at line 818 runs before the `try` at line 834 and the
`__main__` loop wraps no handler around `update_json`, so a catalog that
fails to read or parse raises an exception that aborts the whole run. -/

/-- `update_json` including the unguarded catalog load: a load/parse error
propagates out (it is not counted in any counter). -/
def update_json_checked (loadResult : Except Unit Dict) (json_file : String)
    (i18n_dict : Dict) (positions : Positions) (fl : Flags) (tr : Translator) :
    Except Unit UpdateResult :=
  match loadResult with
  | .error e => .error e
  | .ok data => .ok (update_json json_file i18n_dict positions fl tr data)

/-- The `__main__` loop over the locale catalogs (lines 976-986): each
catalog is processed by `update_json` with no surrounding handler, so the
first load failure aborts the run and no later catalog is processed. -/
def reconcileAll (i18n_dict : Dict) (positions : Positions) (fl : Flags)
    (tr : Translator) : List (String × Except Unit Dict) → Except Unit (List UpdateResult)
  | [] => .ok []
  | (name, ld) :: rest =>
    match update_json_checked ld name i18n_dict positions fl tr with
    | .error e => .error e
    | .ok r =>
      match reconcileAll i18n_dict positions fl tr rest with
      | .error e => .error e
      | .ok rs => .ok (r :: rs)

/-! ## Statement-support definitions -/

/-- The key list of a dict, in order. -/
def keysOf (d : Dict) : List String := d.map (fun e => e.1)

/-- The value contributed for key `k` by the rightmost token of `tokens`
that yields `k` (the value the extractor's unconditional dict assignment
leaves in place), if any token yields `k` at all. -/
def lastValueFor (tag : Element) : List String → String → Option String
  | [], _ => none
  | t :: ts, k =>
    match lastValueFor tag ts k with
    | some v => some v
    | none =>
      match tokenKV tag t with
      | some kv => if kv.1 == k then some kv.2 else none
      | none => none

/-- A translator that always fails; under `auto_translate = false` the
translator is never consulted, so runs are stated against it. -/
def noTranslator : Translator := fun _ _ => .failure

/-- A deterministic translator breaking second-run idempotence: the
`language` variable mutated by key `a`'s fallback makes key `b` fail in the
first run, while a fresh run translates `b` at the original locale code. -/
def trIdem : Translator := fun l t =>
  if t == "va" then
    (if l == "ab-cd" then .unsupported else if l == "ab-CD" then .ok "A" else .failure)
  else if t == "vb" then (if l == "ab-cd" then .ok "B" else .failure)
  else .failure

/-- A translator failing (not with the unsupported-locale text) on `va`. -/
def trSwallow : Translator := fun _ t => if t == "va" then .failure else .ok "B"

/-- A translator that reports the unsupported-locale condition for `va`
until the base language code, then fails otherwise, while `vb` would
translate fine. -/
def trAbort : Translator := fun l t =>
  if t == "vb" then .ok "B" else if l == "ab" then .failure else .unsupported

/-- A translator translating `v1` and exhausting all fallbacks on `v2`. -/
def trPartial : Translator := fun l t =>
  if t == "v1" then .ok "T1" else if l == "ab" then .failure else .unsupported


/-! # Theorems -/

/-! ## Basic dictionary lemmas -/

theorem containsKey_nil (k : String) : containsKey [] k = false := rfl

theorem containsKey_cons (e : String × String) (d : Dict) (k : String) :
    containsKey (e :: d) k = (e.1 == k || containsKey d k) := by
  simp [containsKey]

theorem containsKey_append (d1 d2 : Dict) (k : String) :
    containsKey (d1 ++ d2) k = (containsKey d1 k || containsKey d2 k) := by
  simp [containsKey]

theorem lookupKey_nil (k : String) : lookupKey [] k = none := rfl

theorem lookupKey_cons (e : String × String) (d : Dict) (k : String) :
    lookupKey (e :: d) k = if e.1 == k then some e.2 else lookupKey d k := by
  unfold lookupKey
  rw [List.find?_cons]
  cases h : e.1 == k <;> simp [h]

theorem containsKey_iff_mem (d : Dict) (k : String) :
    containsKey d k = true ↔ k ∈ keysOf d := by
  induction d with
  | nil => simp [containsKey, keysOf]
  | cons e rest ih =>
    rw [containsKey_cons]
    simp only [keysOf, List.map_cons, List.mem_cons, Bool.or_eq_true, beq_iff_eq] at *
    rw [ih]
    constructor
    · rintro (h | h)
      · exact Or.inl h.symm
      · exact Or.inr h
    · rintro (h | h)
      · exact Or.inl h.symm
      · exact Or.inr h

theorem containsKey_of_lookupKey (d : Dict) (k v : String)
    (h : lookupKey d k = some v) : containsKey d k = true := by
  induction d with
  | nil => simp [lookupKey_nil] at h
  | cons e rest ih =>
    rw [lookupKey_cons] at h
    rw [containsKey_cons]
    by_cases h2 : e.1 == k
    · simp [h2]
    · simp only [h2, ite_false, Bool.false_eq_true, not_false_iff, if_neg] at h
      simp [h2, ih h]

theorem lookupKey_none_of_not_contains (d : Dict) (k : String)
    (h : containsKey d k = false) : lookupKey d k = none := by
  induction d with
  | nil => rfl
  | cons e rest ih =>
    rw [containsKey_cons] at h
    rw [lookupKey_cons]
    cases h2 : e.1 == k with
    | true => simp [h2] at h
    | false =>
      simp only [h2, Bool.false_or] at h
      simp [ih h]

theorem mapRepl_lookup_self (d : Dict) (k v : String) (h : containsKey d k = true) :
    lookupKey (d.map (fun e => if e.1 == k then (k, v) else e)) k = some v := by
  induction d with
  | nil => simp [containsKey] at h
  | cons e rest ih =>
    rw [List.map_cons]
    by_cases h2 : e.1 == k
    · rw [if_pos h2, lookupKey_cons]
      simp
    · rw [if_neg h2, lookupKey_cons]
      rw [containsKey_cons] at h
      simp only [h2, Bool.false_or] at h
      simp only [h2, Bool.false_eq_true, not_false_iff, ite_false, if_neg]
      exact ih h

theorem mapRepl_lookup_ne (d : Dict) (k v k' : String) (h : (k == k') = false) :
    lookupKey (d.map (fun e => if e.1 == k then (k, v) else e)) k' = lookupKey d k' := by
  induction d with
  | nil => rfl
  | cons e rest ih =>
    rw [List.map_cons]
    by_cases h2 : e.1 == k
    · have he : e.1 = k := eq_of_beq h2
      rw [if_pos h2, lookupKey_cons, lookupKey_cons]
      have h3 : (e.1 == k') = false := by rw [he]; exact h
      simp only [h, h3, Bool.false_eq_true, not_false_iff, ite_false, if_neg]
      exact ih
    · rw [if_neg h2, lookupKey_cons, lookupKey_cons]
      by_cases h3 : e.1 == k'
      · simp [h3]
      · simp only [h3, Bool.false_eq_true, not_false_iff, ite_false, if_neg]
        exact ih

theorem lookup_append_single_self (d : Dict) (k v : String)
    (h : containsKey d k = false) :
    lookupKey (d ++ [(k, v)]) k = some v := by
  induction d with
  | nil => simp [lookupKey_cons]
  | cons e rest ih =>
    rw [containsKey_cons] at h
    cases h2 : e.1 == k with
    | true => simp [h2] at h
    | false =>
      simp only [h2, Bool.false_or] at h
      rw [List.cons_append, lookupKey_cons]
      simp [h2, ih h]

theorem lookup_append_single_ne (d : Dict) (k v k' : String) (h : (k == k') = false) :
    lookupKey (d ++ [(k, v)]) k' = lookupKey d k' := by
  induction d with
  | nil => simp [lookupKey_cons, lookupKey_nil, h]
  | cons e rest ih =>
    rw [List.cons_append, lookupKey_cons, lookupKey_cons]
    by_cases h2 : e.1 == k'
    · simp [h2]
    · simp only [h2, Bool.false_eq_true, not_false_iff, ite_false, if_neg]
      exact ih

theorem lookupKey_odSet_self (d : Dict) (k v : String) :
    lookupKey (odSet d k v) k = some v := by
  unfold odSet
  by_cases h : containsKey d k
  · rw [if_pos h]; exact mapRepl_lookup_self d k v h
  · rw [if_neg h]
    exact lookup_append_single_self d k v (by simpa using h)

theorem lookupKey_odSet_ne (d : Dict) (k v k' : String) (h : (k == k') = false) :
    lookupKey (odSet d k v) k' = lookupKey d k' := by
  unfold odSet
  by_cases hc : containsKey d k
  · rw [if_pos hc]; exact mapRepl_lookup_ne d k v k' h
  · rw [if_neg hc]; exact lookup_append_single_ne d k v k' h

theorem containsKey_mapRepl (d : Dict) (k v k' : String) :
    containsKey (d.map (fun e => if e.1 == k then (k, v) else e)) k' = containsKey d k' := by
  induction d with
  | nil => rfl
  | cons e rest ih =>
    rw [List.map_cons]
    by_cases h : e.1 == k
    · rw [if_pos h, containsKey_cons, containsKey_cons, ih, eq_of_beq h]
    · rw [if_neg h, containsKey_cons, containsKey_cons, ih]

theorem containsKey_odSet (d : Dict) (k v k' : String) :
    containsKey (odSet d k v) k' = (containsKey d k' || (k == k')) := by
  unfold odSet
  by_cases h : containsKey d k
  · rw [if_pos h, containsKey_mapRepl]
    by_cases h2 : k == k'
    · have : k = k' := eq_of_beq h2
      subst this
      simp [h, h2]
    · simp [h2]
  · rw [if_neg h, containsKey_append]
    simp [containsKey]

theorem keysOf_mapRepl (d : Dict) (k v : String) :
    keysOf (d.map (fun e => if e.1 == k then (k, v) else e)) = keysOf d := by
  unfold keysOf
  rw [List.map_map]
  apply List.map_congr_left
  intro e _
  by_cases h : e.1 == k
  · simp [Function.comp, h, eq_of_beq h]
  · simp [Function.comp, h]

theorem keysOf_odSet_of_contains (d : Dict) (k v : String)
    (h : containsKey d k = true) : keysOf (odSet d k v) = keysOf d := by
  unfold odSet; rw [if_pos h, keysOf_mapRepl]

theorem keysOf_odSet_of_not_contains (d : Dict) (k v : String)
    (h : containsKey d k = false) : keysOf (odSet d k v) = keysOf d ++ [k] := by
  unfold odSet
  rw [if_neg (by simp [h])]
  simp [keysOf]

/-! ## The merge rule (claim C3) -/

theorem lookup_some_of_contains (d : Dict) (k : String) (h : containsKey d k = true) :
    ∃ v, lookupKey d k = some v := by
  induction d with
  | nil => simp [containsKey] at h
  | cons e rest ih =>
    rw [containsKey_cons] at h
    rw [lookupKey_cons]
    cases h2 : e.1 == k with
    | true => exact ⟨e.2, by simp⟩
    | false =>
      simp only [h2, Bool.false_or] at h
      simpa using ih h

theorem not_contains_of_lookup_none (d : Dict) (k : String)
    (h : lookupKey d k = none) : containsKey d k = false := by
  cases hc : containsKey d k with
  | false => rfl
  | true =>
    obtain ⟨v, hv⟩ := lookup_some_of_contains d k hc
    rw [hv] at h
    exact absurd h (by simp)

theorem mergeStep_lookup_ne (t : Dict) (kv : String × String) (k : String)
    (h : (kv.1 == k) = false) :
    lookupKey (mergeStep t kv) k = lookupKey t k := by
  unfold mergeStep
  split
  · rfl
  split
  · exact lookupKey_odSet_ne t kv.1 kv.2 k h
  split
  · exact lookupKey_odSet_ne t kv.1 kv.2 k h
  · rfl

theorem mergeStep_preserve_nonempty (t : Dict) (kv : String × String) (k v : String)
    (hl : lookupKey t k = some v) (hv : v ≠ "") :
    lookupKey (mergeStep t kv) k = some v := by
  by_cases h : kv.1 == k
  · have he : kv.1 = k := eq_of_beq h
    unfold mergeStep
    by_cases h0 : kv.1 == ""
    · rw [if_pos h0]; exact hl
    · rw [if_neg h0]
      have hc : containsKey t kv.1 = true := he ▸ containsKey_of_lookupKey t k v hl
      rw [hc]
      simp only [Bool.not_true, Bool.false_eq_true, if_false, ite_false]
      have : (lookupKey t kv.1 == some "") = false := by
        rw [he, hl]
        cases h3 : (some v == some "") with
        | false => rfl
        | true =>
          exfalso
          have := eq_of_beq h3
          simp only [Option.some.injEq] at this
          exact hv this
      rw [this]
      simp [hl]
  · rw [mergeStep_lookup_ne t kv k (by simpa using h)]
    exact hl

theorem foldMerge_lookup_ne (s : List (String × String)) (t : Dict) (k : String)
    (h : ∀ kv ∈ s, (kv.1 == k) = false) :
    lookupKey (s.foldl mergeStep t) k = lookupKey t k := by
  induction s generalizing t with
  | nil => rfl
  | cons e rest ih =>
    rw [List.foldl_cons, ih _ (fun kv hkv => h kv (List.mem_cons_of_mem e hkv))]
    exact mergeStep_lookup_ne t e k (h e (List.mem_cons_self e rest))

theorem foldMerge_preserve_nonempty (s : List (String × String)) (t : Dict) (k v : String)
    (hl : lookupKey t k = some v) (hv : v ≠ "") :
    lookupKey (s.foldl mergeStep t) k = some v := by
  induction s generalizing t with
  | nil => exact hl
  | cons e rest ih =>
    rw [List.foldl_cons]
    exact ih _ (mergeStep_preserve_nonempty t e k v hl hv)

theorem merge_preserve_nonempty (t s : Dict) (k v : String)
    (hl : lookupKey t k = some v) (hv : v ≠ "") :
    lookupKey (merge_i18n_entries t s) k = some v :=
  foldMerge_preserve_nonempty s t k v hl hv

theorem mergeFoldSources_preserve_nonempty (L : List Dict) (t : Dict) (k v : String)
    (hl : lookupKey t k = some v) (hv : v ≠ "") :
    lookupKey (L.foldl merge_i18n_entries t) k = some v := by
  induction L generalizing t with
  | nil => exact hl
  | cons s rest ih =>
    rw [List.foldl_cons]
    exact ih _ (merge_preserve_nonempty t s k v hl hv)

theorem nodup_keys_tail_not_beq (e : String × String) (rest : Dict) (k : String)
    (hnd : (keysOf (e :: rest)).Nodup) (he : e.1 = k) :
    ∀ kv ∈ rest, (kv.1 == k) = false := by
  intro kv hkv
  simp only [keysOf, List.map_cons, List.nodup_cons] at hnd
  cases h : kv.1 == k with
  | false => rfl
  | true =>
    exfalso
    have : kv.1 = k := eq_of_beq h
    exact hnd.1 (he ▸ this ▸ List.mem_map_of_mem (fun x => x.1) hkv)

theorem merge_sets_from_empty_value (s : Dict) (t : Dict) (k x : String)
    (hk : (k == "") = false) (hnd : (keysOf s).Nodup)
    (ht : lookupKey t k = some "") (hs : lookupKey s k = some x) (hx : x ≠ "") :
    lookupKey (merge_i18n_entries t s) k = some x := by
  induction s generalizing t with
  | nil => simp [lookupKey_nil] at hs
  | cons e rest ih =>
    rw [lookupKey_cons] at hs
    unfold merge_i18n_entries at *
    rw [List.foldl_cons]
    by_cases hek : e.1 == k
    · have he : e.1 = k := eq_of_beq hek
      simp only [hek, if_pos, ite_true, Option.some.injEq] at hs
      have hstep : lookupKey (mergeStep t e) k = some x := by
        unfold mergeStep
        have h0 : (e.1 == "") = false := by rw [he]; exact hk
        rw [h0]
        simp only [Bool.false_eq_true, if_false, ite_false]
        have hc : containsKey t e.1 = true := he ▸ containsKey_of_lookupKey t k "" ht
        rw [hc]
        simp only [Bool.not_true, Bool.false_eq_true, if_false, ite_false]
        have h1 : (lookupKey t e.1 == some "") = true := by
          rw [he, ht]; rfl
        have h2 : (e.2 != "") = true := by
          cases h3 : e.2 == "" with
          | false => simp [bne, h3]
          | true => exact absurd (hs ▸ eq_of_beq h3) hx
        have hcond : (lookupKey t e.1 == some "" && e.2 != "") = true := by
          rw [h1, h2]; rfl
        rw [if_pos hcond, he, hs]
        exact lookupKey_odSet_self t k x
      rw [foldMerge_lookup_ne rest _ k (nodup_keys_tail_not_beq e rest k hnd he), hstep]
    · simp only [hek, Bool.false_eq_true, if_false, ite_false] at hs
      have hnd2 : (keysOf rest).Nodup := by
        simp only [keysOf, List.map_cons, List.nodup_cons] at hnd
        exact hnd.2
      exact ih _ hnd2 (by rw [mergeStep_lookup_ne t e k (by simpa using hek)]; exact ht) hs

theorem merge_inserts_new (s : Dict) (t : Dict) (k x : String)
    (hk : (k == "") = false) (hnd : (keysOf s).Nodup)
    (ht : lookupKey t k = none) (hs : lookupKey s k = some x) :
    lookupKey (merge_i18n_entries t s) k = some x := by
  induction s generalizing t with
  | nil => simp [lookupKey_nil] at hs
  | cons e rest ih =>
    rw [lookupKey_cons] at hs
    unfold merge_i18n_entries at *
    rw [List.foldl_cons]
    by_cases hek : e.1 == k
    · have he : e.1 = k := eq_of_beq hek
      simp only [hek, if_pos, ite_true, Option.some.injEq] at hs
      have hstep : lookupKey (mergeStep t e) k = some x := by
        unfold mergeStep
        have h0 : (e.1 == "") = false := by rw [he]; exact hk
        rw [h0]
        simp only [Bool.false_eq_true, if_false, ite_false]
        have hc : containsKey t e.1 = false := he ▸ not_contains_of_lookup_none t k ht
        rw [hc]
        simp only [Bool.not_false, if_pos, ite_true]
        rw [← hs, ← he]
        exact lookupKey_odSet_self t e.1 e.2
      rw [foldMerge_lookup_ne rest _ k (nodup_keys_tail_not_beq e rest k hnd he), hstep]
    · simp only [hek, Bool.false_eq_true, if_false, ite_false] at hs
      have hnd2 : (keysOf rest).Nodup := by
        simp only [keysOf, List.map_cons, List.nodup_cons] at hnd
        exact hnd.2
      exact ih _ hnd2 (by rw [mergeStep_lookup_ne t e k (by simpa using hek)]; exact ht) hs

/-- C3: the corpus merge rule. (1) A stored non-empty value is never
overwritten by any sequence of later per-file extractions. (2) If a key
first arrives empty and arrives non-empty in the other of two files, the
corpus ends holding the non-empty value in either visitation order. (3) If
two files supply non-empty values, the corpus holds the value of the file
visited first. -/
theorem C3_merge_rule :
    (∀ (t : Dict) (L : List Dict) (k v : String),
      lookupKey t k = some v → v ≠ "" →
      lookupKey (L.foldl merge_i18n_entries t) k = some v) ∧
    (∀ (A B : Dict) (k x : String),
      (k == "") = false → (keysOf A).Nodup → (keysOf B).Nodup →
      lookupKey A k = some "" → lookupKey B k = some x → x ≠ "" →
      lookupKey ([A, B].foldl merge_i18n_entries []) k = some x ∧
      lookupKey ([B, A].foldl merge_i18n_entries []) k = some x) ∧
    (∀ (A B : Dict) (k a b : String),
      (k == "") = false → (keysOf A).Nodup → (keysOf B).Nodup →
      lookupKey A k = some a → a ≠ "" → lookupKey B k = some b → b ≠ "" →
      lookupKey ([A, B].foldl merge_i18n_entries []) k = some a ∧
      lookupKey ([B, A].foldl merge_i18n_entries []) k = some b) := by
  refine ⟨?_, ?_, ?_⟩
  · intro t L k v hl hv
    exact mergeFoldSources_preserve_nonempty L t k v hl hv
  · intro A B k x hk hndA hndB hA hB hx
    constructor
    · show lookupKey (merge_i18n_entries (merge_i18n_entries [] A) B) k = some x
      have hA2 : lookupKey (merge_i18n_entries [] A) k = some "" :=
        merge_inserts_new A [] k "" hk hndA rfl hA
      exact merge_sets_from_empty_value B _ k x hk hndB hA2 hB hx
    · show lookupKey (merge_i18n_entries (merge_i18n_entries [] B) A) k = some x
      have hB2 : lookupKey (merge_i18n_entries [] B) k = some x :=
        merge_inserts_new B [] k x hk hndB rfl hB
      exact merge_preserve_nonempty _ A k x hB2 hx
  · intro A B k a b hk hndA hndB hA ha hB hb
    constructor
    · show lookupKey (merge_i18n_entries (merge_i18n_entries [] A) B) k = some a
      have hA2 : lookupKey (merge_i18n_entries [] A) k = some a :=
        merge_inserts_new A [] k a hk hndA rfl hA
      exact merge_preserve_nonempty _ B k a hA2 ha
    · show lookupKey (merge_i18n_entries (merge_i18n_entries [] B) A) k = some b
      have hB2 : lookupKey (merge_i18n_entries [] B) k = some b :=
        merge_inserts_new B [] k b hk hndB rfl hB
      exact merge_preserve_nonempty _ A k b hB2 hb

theorem C3_merge_rule_witness :
    ("k" == "") = false ∧
    lookupKey ([[("k", "")], [("k", "x")]].foldl merge_i18n_entries []) "k" = some "x" ∧
    lookupKey ([[("k", "x")], [("k", "")]].foldl merge_i18n_entries []) "k" = some "x" := by
  refine ⟨by decide, ?_, ?_⟩
  · exact (C3_merge_rule.2.1 [("k", "")] [("k", "x")] "k" "x" (by decide) (by decide)
      (by decide) (by decide) (by decide) (by decide)).1
  · exact (C3_merge_rule.2.1 [("k", "")] [("k", "x")] "k" "x" (by decide) (by decide)
      (by decide) (by decide) (by decide) (by decide)).2

/-! ## Markup token decoding (claim C4) -/

theorem htmlTokenStep_eq (tag : Element) (d : Dict) (token : String) :
    htmlTokenStep tag d token =
      match tokenKV tag token with
      | none => d
      | some kv => odSet d kv.1 kv.2 := by
  unfold htmlTokenStep tokenKV
  by_cases h0 : token == ""
  · simp [h0]
  · simp only [h0, Bool.false_eq_true, if_false, ite_false]
    by_cases h1 : pyStartsWith token "["
    · simp only [h1, if_true, ite_true]
      cases h3 : bracketSplit token with
      | none => rfl
      | some p =>
        obtain ⟨an, key⟩ := p
        by_cases h4 : key != ""
        · simp [h4]
        · simp [h4]
    · simp only [h1, Bool.false_eq_true, if_false, ite_false]
      have h5 : (token != "") = true := by simp [bne, h0]
      simp [h5]

theorem lookup_foldl_htmlTokenStep (tag : Element) (tokens : List String) (d : Dict)
    (k : String) :
    lookupKey (tokens.foldl (htmlTokenStep tag) d) k =
      match lastValueFor tag tokens k with
      | some v => some v
      | none => lookupKey d k := by
  induction tokens generalizing d with
  | nil => rfl
  | cons t ts ih =>
    rw [List.foldl_cons, ih]
    show _ = match lastValueFor tag (t :: ts) k with
      | some v => some v
      | none => lookupKey d k
    have hcons : lastValueFor tag (t :: ts) k =
        match lastValueFor tag ts k with
        | some v => some v
        | none =>
          match tokenKV tag t with
          | some kv => if kv.1 == k then some kv.2 else none
          | none => none := rfl
    rw [hcons]
    cases hlast : lastValueFor tag ts k with
    | some v => rfl
    | none =>
      simp only
      rw [htmlTokenStep_eq]
      cases hkv : tokenKV tag t with
      | none => rfl
      | some kv =>
        by_cases h : kv.1 == k
        · have he : kv.1 = k := eq_of_beq h
          simp only [h, if_pos, ite_true]
          rw [← he]
          exact lookupKey_odSet_self d kv.1 kv.2
        · simp only [h, Bool.false_eq_true, if_false, ite_false]
          exact lookupKey_odSet_ne d kv.1 kv.2 k (by simpa using h)

/-- C4 counterexample: inside one element, a later token for an existing
key does override it (the claim says the first token's value wins). For
`data-i18n="k;[title]k"` with `title="A"` and inner text `"B"`, the first
token yields value `"B"` but the extractor ends with `"A"`. -/
theorem C4_counterexample_first_token_does_not_win :
    extract_i18n_keys_from_html [⟨[("data-i18n", "k;[title]k"), ("title", "A")], "B"⟩] =
      [("k", "A")] ∧ ("A" : String) ≠ "B" := by
  exact ⟨by decide, by decide⟩

/-- C4 (amended): empty tokens are ignored; `[attrName]rest` tokens yield
`rest` with the trimmed attribute value and plain tokens yield themselves
with the trimmed inner text (concrete instance); and when several tokens of
one element produce the same key, the LAST token's value wins - the final
value of each key is the rightmost contribution, keys keeping first-insertion
position. -/
theorem C4_amended_markup_token_decoding :
    (∀ (tag : Element) (d : Dict), htmlTokenStep tag d "" = d) ∧
    (∀ (tag : Element) (tokens : List String) (d : Dict) (k : String),
      lookupKey (tokens.foldl (htmlTokenStep tag) d) k =
        match lastValueFor tag tokens k with
        | some v => some v
        | none => lookupKey d k) ∧
    extract_i18n_keys_from_html
        [⟨[("data-i18n", "[title]tooltip.save;save_label"), ("title", "Save file")], "Save"⟩] =
      [("tooltip.save", "Save file"), ("save_label", "Save")] ∧
    extract_i18n_keys_from_html [⟨[("data-i18n", "k;[title]k"), ("title", "A")], "B"⟩] =
      [("k", "A")] := by
  refine ⟨fun tag d => rfl, lookup_foldl_htmlTokenStep, by decide, by decide⟩

/-! ## Reconcile end-to-end (claim C2) -/

/-- C2 counterexample: the add pass tests membership (`key not in data`),
not emptiness, so `greeting` (present with value `""`) is not counted
not-found and not set to `"Hi"`; the run produces catalog
`{greeting: ""}` with counters nf=1, add=0, skip=1, extra=1, remove=1,
not the claimed `{greeting: "Hi"}` with nf=2, add=1. -/
theorem C2_counterexample_membership_not_emptiness :
    update_json "de.json" [("greeting", "Hi"), ("farewell", "")] []
        ⟨false, true, true, false⟩ noTranslator [("greeting", ""), ("stale", "old")] =
      ⟨[("greeting", "")], ⟨1, 0, 1, 1, 1, 0⟩⟩ ∧
    ([("greeting", "")] : Dict) ≠ [("greeting", "Hi")] ∧
    (1 : Nat) ≠ 2 ∧ (0 : Nat) ≠ 1 := by
  exact ⟨by decide, by decide, by decide, by decide⟩

/-- C2 (amended): reconciling corpus `{greeting: "Hi", farewell: ""}`
against catalog `{greeting: "", stale: "old"}` under
`{autoAdd: true, autoRemove: true, autoTranslate: false}` leaves `greeting`
untouched (membership, not emptiness, is checked), skips `farewell`,
removes `stale`: catalog `{greeting: ""}`, counters notFound=1, added=0,
skipped=1, extra=1, removed=1. -/
theorem C2_amended_reconcile_end_to_end :
    update_json "de.json" [("greeting", "Hi"), ("farewell", "")] []
        ⟨false, true, true, false⟩ noTranslator [("greeting", ""), ("stale", "old")] =
      ⟨[("greeting", "")], ⟨1, 0, 1, 1, 1, 0⟩⟩ := by decide

/-! ## No atomicity on a failed add pass (claim C10) -/

/-- C10: when the add pass is aborted by an escaping translation failure
(here after `k1` was already added, while translating `k2`), the extra-key
removal, the sort and the file rewrite still run: the catalog written is
`{k1: T1}` (the partial add persisted, `stale` removed, `k3` never
processed), not the pre-run `{stale: "s"}`. -/
theorem C10_no_atomicity_on_error :
    update_json "ab-cd.json" [("k1", "v1"), ("k2", "v2"), ("k3", "v3")] []
        ⟨true, true, true, true⟩ trPartial [("stale", "s")] =
      ⟨[("k1", "T1")], ⟨2, 1, 0, 1, 1, 1⟩⟩ ∧
    serializeCatalog [("k1", "T1")] ≠ serializeCatalog [("stale", "s")] := by
  exact ⟨by decide, by decide⟩

/-! ## Catalog load errors (claim C5) -/

/-- C5 counterexample: a catalog whose JSON fails to load aborts the whole
run (the load at line 818 is outside the `try` at line 834 and the
`__main__` loop has no handler): with catalogs [good, bad, good] the run
ends in the propagated error; the later catalog is not processed and no
error counter is produced at all. -/
theorem C5_counterexample_load_error_aborts :
    reconcileAll [] [] ⟨false, false, true, false⟩ noTranslator
      [("a.json", Except.ok [("k", "v")]), ("b.json", Except.error ()),
       ("c.json", Except.ok [])] = Except.error () := rfl

/-- C5 (amended): an unreadable/unparsable catalog raises an uncaught
exception: after any number of successfully loaded catalogs, the first load
failure makes the whole run abort (remaining catalogs are not processed, and
the failure is not recorded in the error counter - only add-pass exceptions
are); a successfully loaded catalog is processed normally. -/
theorem C5_amended_load_errors_are_fatal :
    (∀ (cp : Dict) (ps : Positions) (fl : Flags) (tr : Translator)
      (goods : List (String × Dict)) (name : String)
      (rest : List (String × Except Unit Dict)),
      reconcileAll cp ps fl tr
        (goods.map (fun g => (g.1, Except.ok g.2)) ++ (name, Except.error ()) :: rest) =
        Except.error ()) ∧
    (∀ (cp : Dict) (ps : Positions) (fl : Flags) (tr : Translator) (name : String)
      (d : Dict),
      update_json_checked (Except.ok d) name cp ps fl tr =
        Except.ok (update_json name cp ps fl tr d)) := by
  constructor
  · intro cp ps fl tr goods name rest
    induction goods with
    | nil => rfl
    | cons g gs ih =>
      show reconcileAll cp ps fl tr ((g.1, Except.ok g.2) ::
        (gs.map (fun g => (g.1, Except.ok g.2)) ++ (name, Except.error ()) :: rest)) =
        Except.error ()
      unfold reconcileAll update_json_checked
      rw [ih]
  · intro cp ps fl tr name d
    rfl

/-! ## Translation error handling (claims C6, C1) -/

theorem addPassGo_append (fl : Flags) (tr : Translator) (c1 c2 : List (String × String))
    (st : AddState) :
    addPassGo fl tr (c1 ++ c2) st =
      match addPassGo fl tr c1 st with
      | (st1, true) => (st1, true)
      | (st1, false) => addPassGo fl tr c2 st1 := by
  induction c1 generalizing st with
  | nil => rfl
  | cons kv rest ih =>
    simp only [List.cons_append, addPassGo]
    cases h : addKeyStep fl tr st kv with
    | mk st2 ab =>
      cases ab with
      | true => rfl
      | false => exact ih st2

/-- C6 counterexample. First run (`trSwallow` fails with a
non-unsupported-locale error on `va`): no error is counted for key `a` (the
claim demands exactly one) and the run continues to `b`. Second run
(`trAbort` exhausts the two fallbacks on `va` and then fails): one error is
counted but the remaining key `b` is NOT processed (nf stays 1, `b` absent)
even though the translator would have translated it. -/
theorem C6_counterexample_error_handling :
    (update_json "ab-cd.json" [("a", "va"), ("b", "vb")] [] ⟨false, false, true, true⟩
        trSwallow []) = ⟨[("b", "B")], ⟨2, 1, 0, 0, 0, 0⟩⟩ ∧
    (update_json "ab-cd.json" [("a", "va"), ("b", "vb")] [] ⟨false, false, true, true⟩
        trAbort []) = ⟨[], ⟨1, 0, 0, 0, 0, 1⟩⟩ ∧
    trAbort "ab-cd" "vb" = .ok "B" := by
  exact ⟨by decide, by decide, by decide⟩

/-- C6 (amended): with auto-translate on and a missing key with non-empty
default, (1) a failure other than the unsupported-locale condition on the
first attempt is silently swallowed: the key is left unset, NO error is
counted, the loop continues; (2) the unsupported-locale condition triggers
at most two retries (region subtag upper-cased, then base language subtag
alone), and if the third attempt also fails - with any error - the
exception escapes: the key is left unset and the step aborts the loop;
(3) an aborted add loop counts exactly one error for the whole run and the
remaining corpus keys are never processed. Keys are never defaulted to the
untranslated source text. -/
theorem C6_amended_translation_error_handling :
    (∀ (fl : Flags) (tr : Translator) (st : AddState) (k v : String),
      fl.auto_add = true → fl.auto_translate = true →
      containsKey st.data k = false → v ≠ "" →
      tr st.language v = .failure →
      addKeyStep fl tr st (k, v) =
        ({ st with counters := { st.counters with nf := st.counters.nf + 1 } }, false)) ∧
    (∀ (fl : Flags) (tr : Translator) (st : AddState) (k v lang2 : String),
      fl.auto_add = true → fl.auto_translate = true →
      containsKey st.data k = false → v ≠ "" →
      tr st.language v = .unsupported →
      renormalizeLanguage st.language = some lang2 →
      tr lang2 v = .unsupported →
      (∀ t, tr ((pySplit lang2 '-').headD "") v ≠ .ok t) →
      addKeyStep fl tr st (k, v) =
        (⟨st.data, { st.counters with nf := st.counters.nf + 1 },
          (pySplit lang2 '-').headD ""⟩, true)) ∧
    (∀ (fl : Flags) (tr : Translator) (c1 c2 : Dict) (st : AddState),
      (addPassGo fl tr c1 st).2 = true →
      addPass fl tr (c1 ++ c2) st =
        { (addPassGo fl tr c1 st).1 with
            counters := { (addPassGo fl tr c1 st).1.counters with
              err := (addPassGo fl tr c1 st).1.counters.err + 1 } }) := by
  refine ⟨?_, ?_, ?_⟩
  · intro fl tr st k v hadd htrans hcont hv htr
    have hvb : (v == "") = false := by
      cases h : v == "" with
      | false => rfl
      | true => exact absurd (eq_of_beq h) hv
    have hvb2 : (v != "") = true := by simp [bne, hvb]
    simp only [addKeyStep, hcont, hadd, htrans, htr, hvb, hvb2, Bool.false_eq_true,
      if_false, ite_false, Bool.and_self, if_pos, ite_true]
  · intro fl tr st k v lang2 hadd htrans hcont hv htr1 hren htr2 htr3
    have hvb : (v == "") = false := by
      cases h : v == "" with
      | false => rfl
      | true => exact absurd (eq_of_beq h) hv
    have hvb2 : (v != "") = true := by simp [bne, hvb]
    simp only [addKeyStep, hcont, hadd, htrans, htr1, hren, htr2, hvb, hvb2,
      Bool.false_eq_true, if_false, ite_false, Bool.and_self, if_pos, ite_true]
  · intro fl tr c1 c2 st h
    unfold addPass
    rw [addPassGo_append]
    cases hgo : addPassGo fl tr c1 st with
    | mk st1 ab =>
      rw [hgo] at h
      cases ab with
      | true => rfl
      | false => simp at h

theorem C6_amended_witness :
    addKeyStep ⟨false, false, true, true⟩ trSwallow ⟨[], counters0, "ab-cd"⟩ ("a", "va") =
      (⟨[], ⟨1, 0, 0, 0, 0, 0⟩, "ab-cd"⟩, false) := by
  have h := C6_amended_translation_error_handling.1 ⟨false, false, true, true⟩ trSwallow
    ⟨[], counters0, "ab-cd"⟩ "a" "va" rfl rfl (by decide) (by decide) (by decide)
  exact h

/-! ## Static-value resolution and the t-backtick path (claim C8) -/

theorem parse_static_none_of_interp (value : String)
    (hb : pyGet (pyStrip value).toList 0 = backquote)
    (hi : (consume_template_literal_with_interpolations
      (pyStrip value).toList 0 false).map (fun r => r.2.2.1) = some true) :
    parse_static_js_value value = some none := by
  obtain ⟨r, hc, hr⟩ := Option.map_eq_some'.mp hi
  have hstr : parse_js_string_literal value = some none := by
    simp only [parse_js_string_literal]
    split
    · rfl
    split
    · rfl
    · rename_i hq
      exfalso
      rw [hb] at hq
      revert hq
      decide
  unfold parse_static_js_value
  rw [hstr]
  dsimp only
  have hne : ((pyStrip value) == "") = false := by
    cases h : pyStrip value == "" with
    | false => rfl
    | true =>
      exfalso
      have he : pyStrip value = "" := eq_of_beq h
      rw [he] at hb
      exact absurd hb (by decide)
  rw [if_neg (by rw [hne]; exact Bool.false_ne_true)]
  have hbq : (pyGet (pyStrip value).toList 0 != backquote) = false := by
    show (!(pyGet (pyStrip value).toList 0 == backquote)) = false
    rw [hb]
    decide
  rw [if_neg (by rw [hbq]; exact Bool.false_ne_true)]
  rw [hc]
  dsimp only
  rw [if_pos (by simp only [hr, Bool.or_true])]

/-- C8 counterexample: the claim "static-value resolution returns None for
every template literal containing at least one interpolation" is false on
the program: on the interpolated template argument
`` `${x}\u{110000}` `` the template scan decodes the escape and
`chr(0x110000)` at line 217 raises `ValueError` (`none` in the model),
which is not the Python `None` return (`some none` in the model). -/
theorem C8_counterexample_interpolated_template_raises :
    parse_static_js_value "`${x}\\u{110000}`" = none ∧
    (none : Option (Option String)) ≠ some none := by
  exact ⟨by decide, by decide⟩

/-- C8 (amended): whenever the template scan itself returns (rather than
raising `ValueError` from an out-of-range escape), a template literal
containing at least one interpolation is never statically known
(`parse_static_js_value` returns Python `None`) - concretely on
`` `Hello ${name}, key` `` and in general - yet the bare-`t`-backtick
extraction path consumes the same template shape with numbered placeholders
and records `"Hello ${0}"` as both key and default value. -/
theorem C8_amended_template_interpolation_round_trip :
    parse_static_js_value "`Hello ${name}, key`" = some none ∧
    (∀ (value : String),
      pyGet (pyStrip value).toList 0 = backquote →
      (consume_template_literal_with_interpolations
        (pyStrip value).toList 0 false).map (fun r => r.2.2.1) = some true →
      parse_static_js_value value = some none) ∧
    (∀ (htmlOf markupOf : String → Dict) (bindingOf noiseOf : String → Bool),
      extract_i18n_keys_from_scripts htmlOf markupOf bindingOf noiseOf
        "t`Hello ${name}`" = some [("Hello ${0}", "Hello ${0}")]) := by
  refine ⟨by decide, parse_static_none_of_interp, fun _ _ _ _ => rfl⟩

theorem C8_amended_witness :
    pyGet (pyStrip "`Hello ${name}, key`").toList 0 = backquote ∧
    parse_static_js_value "`Hello ${name}, key`" = some none := by
  refine ⟨by decide, ?_⟩
  exact C8_amended_template_interpolation_round_trip.2.1 "`Hello ${name}, key`"
    (by decide) (by decide)

/-! ## Scanner progress and bounds (claim C9) -/

theorem length_takeWhile_le (p : Char → Bool) (l : List Char) :
    (l.takeWhile p).length ≤ l.length := by
  induction l with
  | nil => simp
  | cons x rest ih =>
    by_cases h : p x <;> simp [List.takeWhile_cons, h] <;> omega

theorem findCharIdx_lt (c : Char) : ∀ (l : List Char) (j : Nat),
    findCharIdx c l = some j → j < l.length := by
  intro l
  induction l with
  | nil => intro j h; simp [findCharIdx] at h
  | cons x rest ih =>
    intro j h
    unfold findCharIdx at h
    by_cases h2 : x == c
    · simp only [h2, if_true, ite_true, Option.some.injEq] at h
      simp [← h]
    · simp only [h2, Bool.false_eq_true, if_false, ite_false] at h
      cases h3 : findCharIdx c rest with
      | none => rw [h3] at h; simp at h
      | some j2 =>
        rw [h3] at h
        simp only [Option.some.injEq] at h
        have := ih j2 h3
        simp only [List.length_cons]
        omega

theorem findCharFrom_bounds (cs : List Char) (c : Char) (start p : Nat)
    (h : findCharFrom cs c start = some p) : start ≤ p ∧ p < cs.length := by
  unfold findCharFrom at h
  cases h2 : findCharIdx c (cs.drop start) with
  | none => rw [h2] at h; simp at h
  | some j =>
    rw [h2] at h
    simp only [Option.some.injEq] at h
    have := findCharIdx_lt c (cs.drop start) j h2
    rw [List.length_drop] at this
    omega

theorem findPairIdx_bounds (a b : Char) : ∀ (l : List Char) (j : Nat),
    findPairIdx l a b = some j → j + 2 ≤ l.length := by
  intro l
  induction l with
  | nil => intro j h; simp [findPairIdx] at h
  | cons x rest ih =>
    intro j h
    cases rest with
    | nil => simp [findPairIdx] at h
    | cons y rest2 =>
      unfold findPairIdx at h
      by_cases h2 : x == a && y == b
      · simp only [h2, if_true, ite_true, Option.some.injEq] at h
        simp only [List.length_cons]
        omega
      · simp only [h2, Bool.false_eq_true, if_false, ite_false] at h
        cases h3 : findPairIdx (y :: rest2) a b with
        | none => rw [h3] at h; simp at h
        | some j2 =>
          rw [h3] at h
          simp only [Option.some.injEq] at h
          have := ih j2 h3
          simp only [List.length_cons] at *
          omega

theorem pyChr_eq_none (n : Nat) (h : pyChr n = none) : 1114112 <= n := by
  unfold pyChr at h
  by_cases h1 : n < 1114112
  . rw [if_pos h1] at h
    exact Option.noConfusion h
  . omega

theorem hexDigitVal_lt (c : Char) : hexDigitVal c < 16 := by
  have hdig : c.isDigit = true -> c.toNat <= 57 := by
    intro hd
    simp only [Char.isDigit, Bool.and_eq_true, decide_eq_true_eq, ge_iff_le] at hd
    have h2 := hd.2
    rw [UInt32.le_def] at h2
    have h3 := BitVec.le_def.mp h2
    simpa [Char.toNat, UInt32.toNat] using h3
  have hrange : forall (lo hi : Char), (lo <= c && c <= hi) = true -> c.toNat <= hi.toNat := by
    intro lo hi hl
    rw [Bool.and_eq_true] at hl
    have h2 := hl.2
    rw [decide_eq_true_eq] at h2
    rw [Char.le_def, UInt32.le_def] at h2
    have b2 := BitVec.le_def.mp h2
    simpa [Char.toNat, UInt32.toNat] using b2
  unfold hexDigitVal
  by_cases h1 : c.isDigit = true
  . rw [if_pos h1]
    have := hdig h1
    omega
  . rw [if_neg h1]
    by_cases h2 : ('a' <= c && c <= 'f') = true
    . rw [if_pos h2]
      have := hrange 'a' 'f' h2
      have hf : ('f' : Char).toNat = 102 := by decide
      omega
    . rw [if_neg h2]
      by_cases h3 : ('A' <= c && c <= 'F') = true
      . rw [if_pos h3]
        have := hrange 'A' 'F' h3
        have hF : ('F' : Char).toNat = 70 := by decide
        omega
      . rw [if_neg h3]
        omega

theorem hexFold_lt : forall (cs : List Char) (a : Nat),
    cs.foldl (fun a c => 16 * a + hexDigitVal c) a < 16 ^ cs.length * (a + 1) := by
  intro cs
  induction cs with
  | nil =>
    intro a
    simp
  | cons c rest ih =>
    intro a
    have hv := hexDigitVal_lt c
    have hr := ih (16 * a + hexDigitVal c)
    simp only [List.foldl_cons, List.length_cons]
    have hle : 16 ^ rest.length * (16 * a + hexDigitVal c + 1) <=
        16 ^ (rest.length + 1) * (a + 1) := by
      rw [pow_succ]
      have h2 : 16 * a + hexDigitVal c + 1 <= 16 * (a + 1) := by omega
      calc 16 ^ rest.length * (16 * a + hexDigitVal c + 1)
          <= 16 ^ rest.length * (16 * (a + 1)) := Nat.mul_le_mul_left _ h2
        _ = 16 ^ rest.length * 16 * (a + 1) := by ring
    exact lt_of_lt_of_le hr hle

theorem hexToNat_lt (cs : List Char) : hexToNat cs < 16 ^ cs.length := by
  have := hexFold_lt cs 0
  simpa using this

theorem pySlice_length_le (cs : List Char) (a b : Nat) :
    (pySlice cs a b).length <= b - a := by
  unfold pySlice
  exact List.length_take_le _ _

theorem decode_js_escape_none_only_chr (s : List Char) (i : Nat)
    (hdec : decode_js_escape s i = none) :
    pyGet s i = 'u' ∧ i + 1 < s.length ∧ pyGet s (i + 1) = '\x7b' ∧
    ∃ closePos, findCharFrom s '\x7d' (i + 2) = some closePos ∧
      (pySlice s (i + 2) closePos).all isHexDigit = true ∧
      1114112 <= hexToNat (pySlice s (i + 2) closePos) := by
  unfold decode_js_escape at hdec
  by_cases h1 : s.length <= i
  . rw [if_pos h1] at hdec
    exact Option.noConfusion hdec
  . rw [if_neg h1] at hdec
    dsimp only at hdec
    cases h2 : simpleEscape (pyGet s i) with
    | some d =>
      rw [h2] at hdec
      exact Option.noConfusion hdec
    | none =>
      rw [h2] at hdec
      by_cases h3 : (pyGet s i == 'x' && decide (i + 2 < s.length) &&
          (pySlice s (i + 1) (i + 3)).all isHexDigit) = true
      . rw [if_pos h3] at hdec
        exfalso
        cases h4 : pyChr (hexToNat (pySlice s (i + 1) (i + 3))) with
        | some ch =>
          rw [h4] at hdec
          exact Option.noConfusion hdec
        | none =>
          have hge := pyChr_eq_none _ h4
          have hlt := hexToNat_lt (pySlice s (i + 1) (i + 3))
          have hlen := pySlice_length_le s (i + 1) (i + 3)
          have hpow : 16 ^ (pySlice s (i + 1) (i + 3)).length <= 16 ^ 2 :=
            Nat.pow_le_pow_right (by omega) (by omega)
          have : (16 : Nat) ^ 2 = 256 := by norm_num
          omega
      . rw [if_neg h3] at hdec
        by_cases h5 : (pyGet s i == 'u') = true
        . rw [if_pos h5] at hdec
          by_cases h6 : (decide (i + 1 < s.length) && pyGet s (i + 1) == '\x7b') = true
          . rw [if_pos h6] at hdec
            cases h7 : findCharFrom s '\x7d' (i + 2) with
            | none =>
              rw [h7] at hdec
              exact Option.noConfusion hdec
            | some closePos =>
              rw [h7] at hdec
              dsimp only at hdec
              by_cases h8 : ((pySlice s (i + 2) closePos) != [] &&
                  (pySlice s (i + 2) closePos).all isHexDigit) = true
              . rw [if_pos h8] at hdec
                cases h9 : pyChr (hexToNat (pySlice s (i + 2) closePos)) with
                | some ch =>
                  rw [h9] at hdec
                  exact Option.noConfusion hdec
                | none =>
                  rw [Bool.and_eq_true] at h6 h8
                  refine ⟨eq_of_beq h5, of_decide_eq_true h6.1, eq_of_beq h6.2,
                    closePos, rfl, h8.2, pyChr_eq_none _ h9⟩
              . rw [if_neg h8] at hdec
                exact Option.noConfusion hdec
          . rw [if_neg h6] at hdec
            by_cases h10 : i + 4 < s.length
            . rw [if_pos h10] at hdec
              dsimp only at hdec
              by_cases h11 : ((pySlice s (i + 1) (i + 5)).all isHexDigit) = true
              . rw [if_pos h11] at hdec
                exfalso
                cases h12 : pyChr (hexToNat (pySlice s (i + 1) (i + 5))) with
                | some ch =>
                  rw [h12] at hdec
                  exact Option.noConfusion hdec
                | none =>
                  have hge := pyChr_eq_none _ h12
                  have hlt := hexToNat_lt (pySlice s (i + 1) (i + 5))
                  have hlen := pySlice_length_le s (i + 1) (i + 5)
                  have hpow : 16 ^ (pySlice s (i + 1) (i + 5)).length <= 16 ^ 4 :=
                    Nat.pow_le_pow_right (by omega) (by omega)
                  have : (16 : Nat) ^ 4 = 65536 := by norm_num
                  omega
              . rw [if_neg h11] at hdec
                exact Option.noConfusion hdec
            . rw [if_neg h10] at hdec
              exact Option.noConfusion hdec
        . rw [if_neg h5] at hdec
          exact Option.noConfusion hdec

theorem decode_js_escape_ge (s : List Char) (i : Nat) (dn : Char × Nat)
    (h : decode_js_escape s i = some dn) : i <= dn.2 := by
  unfold decode_js_escape at h
  by_cases h1 : s.length <= i
  . rw [if_pos h1] at h
    injection h with h2
    subst h2
    exact le_rfl
  . rw [if_neg h1] at h
    dsimp only at h
    cases h3 : findCharFrom s '\x7d' (i + 2) with
    | none =>
      simp only [h3] at h
      repeat' split at h
      all_goals first
        | exact Option.noConfusion h
        | (injection h with h2; subst h2; omega)
    | some closePos =>
      have hfb := findCharFrom_bounds s '\x7d' (i + 2) closePos h3
      simp only [h3] at h
      repeat' split at h
      all_goals first
        | exact Option.noConfusion h
        | (injection h with h2; subst h2; omega)

theorem skipStringLoop_bounds (s : List Char) (q : Char) :
    ∀ (fuel j n : Nat), skipStringLoop fuel s q j = some n ->
      min j s.length <= n ∧ n <= s.length := by
  intro fuel
  induction fuel with
  | zero =>
    intro j n h
    injection h with h2
    omega
  | succ fuel ih =>
    intro j n h
    unfold skipStringLoop at h
    by_cases hj : j < s.length
    . rw [if_pos hj] at h
      by_cases h1 : (pyGet s j == '\\') = true
      . rw [if_pos h1] at h
        cases hd : decode_js_escape s (j + 1) with
        | none =>
          rw [hd] at h
          exact Option.noConfusion h
        | some dn =>
          rw [hd] at h
          have hge := decode_js_escape_ge s (j + 1) dn hd
          have hih := ih dn.2 n h
          omega
      . rw [if_neg h1] at h
        by_cases h2 : (pyGet s j == q) = true
        . rw [if_pos h2] at h
          injection h with h2b
          omega
        . rw [if_neg h2] at h
          have hih := ih (j + 1) n h
          omega
    . rw [if_neg hj] at h
      injection h with h2
      omega

theorem skip_string_literal_bounds (s : List Char) (i : Nat) (h : i < s.length)
    (n : Nat) (hn : skip_string_literal s i = some n) :
    i < n ∧ n <= s.length := by
  unfold skip_string_literal at hn
  have := skipStringLoop_bounds s (pyGet s i) (s.length + 1) (i + 1) n hn
  omega

theorem skip_line_comment_bounds (s : List Char) (i : Nat) (h : i < s.length) :
    i < skip_line_comment s i ∧ skip_line_comment s i ≤ s.length := by
  unfold skip_line_comment
  cases hf : findCharFrom s '\n' i with
  | none => exact ⟨h, le_rfl⟩
  | some p =>
    have := findCharFrom_bounds s '\n' i p hf
    dsimp only
    omega

theorem skip_block_comment_bounds (s : List Char) (i : Nat) (h : i < s.length) :
    i < skip_block_comment s i ∧ skip_block_comment s i ≤ s.length := by
  unfold skip_block_comment
  cases hf : findPairIdx (s.drop (i + 2)) '*' '/' with
  | none => exact ⟨h, le_rfl⟩
  | some j =>
    have hb := findPairIdx_bounds '*' '/' (s.drop (i + 2)) j hf
    rw [List.length_drop] at hb
    dsimp only
    omega

theorem skipRegexFlags_bounds (s : List Char) (i : Nat) (h : i ≤ s.length) :
    i ≤ skipRegexFlags s i ∧ skipRegexFlags s i ≤ s.length := by
  unfold skipRegexFlags
  have := length_takeWhile_le Char.isAlpha (s.drop i)
  rw [List.length_drop] at this
  omega

theorem skipRegexLoop_bounds (s : List Char) (start : Nat) (hs : start < s.length) :
    ∀ (fuel j : Nat) (ic : Bool), start < j →
      start < skipRegexLoop fuel s start j ic ∧ skipRegexLoop fuel s start j ic ≤ s.length := by
  intro fuel
  induction fuel with
  | zero => intro j ic hj; exact ⟨hs, le_rfl⟩
  | succ fuel ih =>
    intro j ic hj
    unfold skipRegexLoop
    by_cases hjl : j < s.length
    · rw [if_pos hjl]
      by_cases h1 : (pyGet s j == '\\') = true
      · rw [if_pos h1]
        exact ih (j + 2) ic (by omega)
      · rw [if_neg h1]
        by_cases h2 : (pyGet s j == '[' && !ic) = true
        · rw [if_pos h2]
          exact ih (j + 1) true (by omega)
        · rw [if_neg h2]
          by_cases h3 : (pyGet s j == ']' && ic) = true
          · rw [if_pos h3]
            exact ih (j + 1) false (by omega)
          · rw [if_neg h3]
            by_cases h4 : (pyGet s j == '/' && !ic) = true
            · rw [if_pos h4]
              have := skipRegexFlags_bounds s (j + 1) (by omega)
              omega
            · rw [if_neg h4]
              by_cases h5 : (pyGet s j == '\n' || pyGet s j == '\r') = true
              · rw [if_pos h5]; omega
              · rw [if_neg h5]
                exact ih (j + 1) ic (by omega)
    · rw [if_neg hjl]
      exact ⟨hs, le_rfl⟩

theorem skip_regex_literal_bounds (s : List Char) (i : Nat) (h : i < s.length) :
    i < skip_regex_literal s i ∧ skip_regex_literal s i ≤ s.length := by
  unfold skip_regex_literal
  exact skipRegexLoop_bounds s i h (s.length + 1) (i + 1) false (by omega)

theorem exprTemplate_bounds :
    ∀ (fuel : Nat),
      (∀ (s : List Char) (j d n : Nat), consumeJsExprLoop fuel s j d = some n ->
        min j s.length <= n ∧ n <= s.length) ∧
      (∀ (s : List Char) (r : Bool) (j : Nat) (buf : String) (p : Nat) (hi : Bool)
        (rg : List (Nat × Nat)) (t : Nat × String × Bool × Bool × List (Nat × Nat)),
        consumeTemplateLoop fuel s r j buf p hi rg = some t ->
        min j s.length <= t.1 ∧ t.1 <= s.length) := by
  intro fuel
  induction fuel with
  | zero =>
    constructor
    . intro s j d n h
      injection h with h2
      omega
    . intro s r j buf p hi rg t h
      injection h with h2
      subst h2
      exact ⟨min_le_right _ _, le_rfl⟩
  | succ fuel ih =>
    obtain ⟨ihE, ihT⟩ := ih
    constructor
    . intro s j d n h
      unfold consumeJsExprLoop at h
      by_cases hj : j < s.length
      . rw [if_pos hj] at h
        by_cases h1 : (pyGet s j == '\'' || pyGet s j == '"') = true
        . rw [if_pos h1] at h
          cases hsk : skip_string_literal s j with
          | none =>
            rw [hsk] at h
            exact Option.noConfusion h
          | some ni =>
            rw [hsk] at h
            have hb := skip_string_literal_bounds s j hj ni hsk
            have hih := ihE s ni d n h
            omega
        . rw [if_neg h1] at h
          by_cases h2 : (pyGet s j == backquote) = true
          . rw [if_pos h2] at h
            cases htm : consumeTemplateLoop fuel s false (j + 1) "" 0 false [] with
            | none =>
              rw [htm] at h
              exact Option.noConfusion h
            | some r0 =>
              rw [htm] at h
              have hb := ihT s false (j + 1) "" 0 false [] r0 htm
              have hih := ihE s r0.1 d n h
              omega
          . rw [if_neg h2] at h
            by_cases h3 : (pyGet s j == '/' && pyNext s j == some '/') = true
            . rw [if_pos h3] at h
              have hb := skip_line_comment_bounds s j hj
              have hih := ihE s (skip_line_comment s j) d n h
              omega
            . rw [if_neg h3] at h
              by_cases h4 : (pyGet s j == '/' && pyNext s j == some '*') = true
              . rw [if_pos h4] at h
                have hb := skip_block_comment_bounds s j hj
                have hih := ihE s (skip_block_comment s j) d n h
                omega
              . rw [if_neg h4] at h
                by_cases h5 : (pyGet s j == '/' && can_start_regex_literal s j) = true
                . rw [if_pos h5] at h
                  have hb := skip_regex_literal_bounds s j hj
                  have hih := ihE s (skip_regex_literal s j) d n h
                  omega
                . rw [if_neg h5] at h
                  by_cases h6 : (pyGet s j == '\x7b') = true
                  . rw [if_pos h6] at h
                    have hih := ihE s (j + 1) (d + 1) n h
                    omega
                  . rw [if_neg h6] at h
                    by_cases h7 : (pyGet s j == '\x7d') = true
                    . rw [if_pos h7] at h
                      by_cases h8 : (d == 1) = true
                      . rw [if_pos h8] at h
                        injection h with h2b
                        omega
                      . rw [if_neg h8] at h
                        have hih := ihE s (j + 1) (d - 1) n h
                        omega
                    . rw [if_neg h7] at h
                      have hih := ihE s (j + 1) d n h
                      omega
      . rw [if_neg hj] at h
        injection h with h2
        omega
    . intro s r j buf p hi rg t h
      unfold consumeTemplateLoop at h
      by_cases hj : j < s.length
      . rw [if_pos hj] at h
        by_cases h1 : (pyGet s j == '\\') = true
        . rw [if_pos h1] at h
          cases hd : decode_js_escape s (j + 1) with
          | none =>
            rw [hd] at h
            exact Option.noConfusion h
          | some dn =>
            rw [hd] at h
            have hge := decode_js_escape_ge s (j + 1) dn hd
            have hih := ihT s r dn.2 (buf.push dn.1) p hi rg t h
            omega
        . rw [if_neg h1] at h
          by_cases h2 : (pyGet s j == backquote) = true
          . rw [if_pos h2] at h
            injection h with h2b
            subst h2b
            dsimp only
            omega
          . rw [if_neg h2] at h
            by_cases h3 : (pyGet s j == '$' && pyNext s j == some '\x7b') = true
            . rw [if_pos h3] at h
              dsimp only at h
              cases he : consumeJsExprLoop fuel s (j + 2) 1 with
              | none =>
                rw [he] at h
                exact Option.noConfusion h
              | some exprEnd =>
                rw [he] at h
                have hb := ihE s (j + 2) 1 exprEnd he
                have hih := ihT s r exprEnd _ _ true _ t h
                omega
            . rw [if_neg h3] at h
              have hih := ihT s r (j + 1) (buf.push (pyGet s j)) p hi rg t h
              omega
      . rw [if_neg hj] at h
        injection h with h2
        subst h2
        dsimp only
        omega

theorem consume_template_literal_with_interpolations_bounds (s : List Char) (i : Nat)
    (r : Bool) (h : i < s.length) (t : Nat × String × Bool × Bool × List (Nat × Nat))
    (ht : consume_template_literal_with_interpolations s i r = some t) :
    i < t.1 ∧ t.1 <= s.length := by
  unfold consume_template_literal_with_interpolations at ht
  have := (exprTemplate_bounds (mutualFuel s)).2 s r (i + 1) "" 0 false [] t ht
  omega

theorem consumeJsExprLoop_gt (fuel : Nat) (s : List Char) (j d : Nat) (h : j < s.length)
    (n : Nat) (hn : consumeJsExprLoop fuel s j d = some n) : j < n ∧ n <= s.length := by
  cases fuel with
  | zero =>
    unfold consumeJsExprLoop at hn
    injection hn with h2
    omega
  | succ fuel =>
    obtain ⟨ihE, ihT⟩ := exprTemplate_bounds fuel
    unfold consumeJsExprLoop at hn
    rw [if_pos h] at hn
    by_cases h1 : (pyGet s j == '\'' || pyGet s j == '"') = true
    . rw [if_pos h1] at hn
      cases hsk : skip_string_literal s j with
      | none =>
        rw [hsk] at hn
        exact Option.noConfusion hn
      | some ni =>
        rw [hsk] at hn
        have hb := skip_string_literal_bounds s j h ni hsk
        have hih := ihE s ni d n hn
        omega
    . rw [if_neg h1] at hn
      by_cases h2 : (pyGet s j == backquote) = true
      . rw [if_pos h2] at hn
        cases htm : consumeTemplateLoop fuel s false (j + 1) "" 0 false [] with
        | none =>
          rw [htm] at hn
          exact Option.noConfusion hn
        | some r0 =>
          rw [htm] at hn
          have hb := ihT s false (j + 1) "" 0 false [] r0 htm
          have hih := ihE s r0.1 d n hn
          omega
      . rw [if_neg h2] at hn
        by_cases h3 : (pyGet s j == '/' && pyNext s j == some '/') = true
        . rw [if_pos h3] at hn
          have hb := skip_line_comment_bounds s j h
          have hih := ihE s (skip_line_comment s j) d n hn
          omega
        . rw [if_neg h3] at hn
          by_cases h4 : (pyGet s j == '/' && pyNext s j == some '*') = true
          . rw [if_pos h4] at hn
            have hb := skip_block_comment_bounds s j h
            have hih := ihE s (skip_block_comment s j) d n hn
            omega
          . rw [if_neg h4] at hn
            by_cases h5 : (pyGet s j == '/' && can_start_regex_literal s j) = true
            . rw [if_pos h5] at hn
              have hb := skip_regex_literal_bounds s j h
              have hih := ihE s (skip_regex_literal s j) d n hn
              omega
            . rw [if_neg h5] at hn
              by_cases h6 : (pyGet s j == '\x7b') = true
              . rw [if_pos h6] at hn
                have hih := ihE s (j + 1) (d + 1) n hn
                omega
              . rw [if_neg h6] at hn
                by_cases h7 : (pyGet s j == '\x7d') = true
                . rw [if_pos h7] at hn
                  by_cases h8 : (d == 1) = true
                  . rw [if_pos h8] at hn
                    injection hn with h2b
                    omega
                  . rw [if_neg h8] at hn
                    have hih := ihE s (j + 1) (d - 1) n hn
                    omega
                . rw [if_neg h7] at hn
                  have hih := ihE s (j + 1) d n hn
                  omega

theorem consume_js_expression_bounds (s : List Char) (i : Nat) (h : i < s.length)
    (n : Nat) (hn : consume_js_expression s i = some n) : i < n ∧ n <= s.length := by
  unfold consume_js_expression at hn
  exact consumeJsExprLoop_gt (mutualFuel s) s i 1 h n hn

theorem skip_template_literal_bounds (s : List Char) (i : Nat) (h : i < s.length)
    (n : Nat) (hn : skip_template_literal s i = some n) : i < n ∧ n <= s.length := by
  unfold skip_template_literal consume_template_literal at hn
  cases hc : consume_template_literal_with_interpolations s i false with
  | none =>
    rw [hc] at hn
    exact Option.noConfusion hn
  | some t =>
    rw [hc] at hn
    dsimp only at hn
    injection hn with h2
    subst h2
    exact consume_template_literal_with_interpolations_bounds s i false h t hc

theorem parseCallArgsLoop_bounds (s : List Char) :
    ∀ (fuel j a pd bd kd : Nat) (args : List String) (t : Nat × Option (List String)),
      parseCallArgsLoop fuel s j a pd bd kd args = some t ->
      min j s.length <= t.1 ∧ t.1 <= s.length := by
  intro fuel
  induction fuel with
  | zero =>
    intro j a pd bd kd args t h
    injection h with h2
    subst h2
    exact ⟨min_le_right _ _, le_rfl⟩
  | succ fuel ih =>
    intro j a pd bd kd args t h
    unfold parseCallArgsLoop at h
    by_cases hj : j < s.length
    . rw [if_pos hj] at h
      by_cases h1 : (pyGet s j == '\'' || pyGet s j == '"') = true
      . rw [if_pos h1] at h
        cases hsk : skip_string_literal s j with
        | none =>
          rw [hsk] at h
          exact Option.noConfusion h
        | some ni =>
          rw [hsk] at h
          have hb := skip_string_literal_bounds s j hj ni hsk
          have hih := ih ni a pd bd kd args t h
          omega
      . rw [if_neg h1] at h
        by_cases h2 : (pyGet s j == backquote) = true
        . rw [if_pos h2] at h
          cases htm : skip_template_literal s j with
          | none =>
            rw [htm] at h
            exact Option.noConfusion h
          | some ni =>
            rw [htm] at h
            have hb := skip_template_literal_bounds s j hj ni htm
            have hih := ih ni a pd bd kd args t h
            omega
        . rw [if_neg h2] at h
          by_cases h3 : (pyGet s j == '/' && pyNext s j == some '/') = true
          . rw [if_pos h3] at h
            have hb := skip_line_comment_bounds s j hj
            have hih := ih (skip_line_comment s j) a pd bd kd args t h
            omega
          . rw [if_neg h3] at h
            by_cases h4 : (pyGet s j == '/' && pyNext s j == some '*') = true
            . rw [if_pos h4] at h
              have hb := skip_block_comment_bounds s j hj
              have hih := ih (skip_block_comment s j) a pd bd kd args t h
              omega
            . rw [if_neg h4] at h
              by_cases h5 : (pyGet s j == '/' && can_start_regex_literal s j) = true
              . rw [if_pos h5] at h
                have hb := skip_regex_literal_bounds s j hj
                have hih := ih (skip_regex_literal s j) a pd bd kd args t h
                omega
              . rw [if_neg h5] at h
                by_cases h6 : (pyGet s j == '(') = true
                . rw [if_pos h6] at h
                  have hih := ih (j + 1) a (pd + 1) bd kd args t h
                  omega
                . rw [if_neg h6] at h
                  by_cases h7 : (pyGet s j == ')') = true
                  . rw [if_pos h7] at h
                    by_cases h8 : (pd == 1) = true
                    . rw [if_pos h8] at h
                      injection h with h2b
                      subst h2b
                      dsimp only
                      omega
                    . rw [if_neg h8] at h
                      have hih := ih (j + 1) a (pd - 1) bd kd args t h
                      omega
                  . rw [if_neg h7] at h
                    by_cases h9 : (pyGet s j == '\x7b') = true
                    . rw [if_pos h9] at h
                      have hih := ih (j + 1) a pd (bd + 1) kd args t h
                      omega
                    . rw [if_neg h9] at h
                      by_cases h10 : (pyGet s j == '\x7d') = true
                      . rw [if_pos h10] at h
                        have hih := ih (j + 1) a pd (bd - 1) kd args t h
                        omega
                      . rw [if_neg h10] at h
                        by_cases h11 : (pyGet s j == '[') = true
                        . rw [if_pos h11] at h
                          have hih := ih (j + 1) a pd bd (kd + 1) args t h
                          omega
                        . rw [if_neg h11] at h
                          by_cases h12 : (pyGet s j == ']') = true
                          . rw [if_pos h12] at h
                            have hih := ih (j + 1) a pd bd (kd - 1) args t h
                            omega
                          . rw [if_neg h12] at h
                            by_cases h13 : (pyGet s j == ',' && pd == 1 && bd == 0 && kd == 0) = true
                            . rw [if_pos h13] at h
                              have hih := ih (j + 1) (j + 1) pd bd kd
                                (args ++ [String.mk (pySlice s a j)]) t h
                              omega
                            . rw [if_neg h13] at h
                              have hih := ih (j + 1) a pd bd kd args t h
                              omega
    . rw [if_neg hj] at h
      injection h with h2
      subst h2
      exact ⟨min_le_right _ _, le_rfl⟩

theorem parse_js_call_arguments_bounds (s : List Char) (i : Nat) (h : i < s.length)
    (t : Nat × Option (List String)) (ht : parse_js_call_arguments s i = some t) :
    i < t.1 ∧ t.1 <= s.length := by
  unfold parse_js_call_arguments at ht
  have := parseCallArgsLoop_bounds s (s.length + 1) (i + 1) (i + 1) 1 0 0 [] t ht
  omega

/-- C9 counterexample: scanning CAN fail on the program. On the string
literal `"\u{110000}"` the skip routine decodes the escape, and
`chr(0x110000)` at line 217 raises `ValueError` (modelled by `none`): no
offset is returned and the exception escapes the scan; the same failure
escapes template consumption, so "returns without raising an exception /
scanning never fails" is refuted. -/
theorem C9_counterexample_scanner_raises :
    skip_string_literal ("\"\\u{110000}\"").toList 0 = none ∧
    consume_template_literal_with_interpolations ("`\\u{110000}`").toList 0 false = none ∧
    decode_js_escape ("\"\\u{110000}\"").toList 2 = none := by
  exact ⟨by decide, by rfl, by decide⟩

/-- C9 (amended): each scanner primitive, WHEN it returns, returns an
offset strictly past the in-bounds start offset and at most `len(text)`,
and unterminated constructs degrade to consuming to the end of the text
(concrete unterminated string, line comment without newline, unterminated
block comment, unterminated regex, unterminated template - reported
not-closed - unclosed interpolation expression, and never-closed argument
list reporting no arguments). The comment and regex skippers are total; the
escape-decoding primitives can instead raise the `ValueError` from `chr`,
and that is their only raising path: a failed decode happens exactly at a
`\u{...}` escape whose hex digits denote a code point of at least 0x110000
(the fixed-width `\xHH` and `\uHHHH` forms are bounded by 0xFF and 0xFFFF
and never raise). -/
theorem C9_amended_scanner_bounds :
    (∀ (source : List Char) (start : Nat), start < source.length ->
      (∀ n, skip_string_literal source start = some n ->
        start < n ∧ n <= source.length) ∧
      (start < skip_line_comment source start ∧
        skip_line_comment source start <= source.length) ∧
      (start < skip_block_comment source start ∧
        skip_block_comment source start <= source.length) ∧
      (start < skip_regex_literal source start ∧
        skip_regex_literal source start <= source.length) ∧
      (∀ (replace : Bool) t,
        consume_template_literal_with_interpolations source start replace = some t ->
        start < t.1 ∧ t.1 <= source.length) ∧
      (∀ n, consume_js_expression source start = some n ->
        start < n ∧ n <= source.length) ∧
      (∀ t, parse_js_call_arguments source start = some t ->
        start < t.1 ∧ t.1 <= source.length)) ∧
    (∀ (source : List Char) (i : Nat), decode_js_escape source i = none ->
      pyGet source i = 'u' ∧ i + 1 < source.length ∧ pyGet source (i + 1) = '\x7b' ∧
      ∃ closePos, findCharFrom source '\x7d' (i + 2) = some closePos ∧
        (pySlice source (i + 2) closePos).all isHexDigit = true ∧
        1114112 <= hexToNat (pySlice source (i + 2) closePos)) ∧
    skip_string_literal ['"', 'a', 'b'] 0 = some 3 ∧
    skip_line_comment ['/', '/', 'x'] 0 = 3 ∧
    skip_block_comment ['/', '*', ' '] 0 = 3 ∧
    skip_regex_literal ['/', 'a', 'b'] 0 = 3 ∧
    consume_template_literal_with_interpolations [backquote, 'a'] 0 false =
      some (2, "a", false, false, []) ∧
    consume_js_expression ['x'] 0 = some 1 ∧
    parse_js_call_arguments ['(', 'a'] 0 = some (2, none) := by
  refine ⟨?_, decode_js_escape_none_only_chr, by decide, by decide, by decide, by decide,
    by rfl, by decide, by rfl⟩
  intro source start h
  exact ⟨fun n hn => skip_string_literal_bounds source start h n hn,
    skip_line_comment_bounds source start h,
    skip_block_comment_bounds source start h,
    skip_regex_literal_bounds source start h,
    fun replace t ht =>
      consume_template_literal_with_interpolations_bounds source start replace h t ht,
    fun n hn => consume_js_expression_bounds source start h n hn,
    fun t ht => parse_js_call_arguments_bounds source start h t ht⟩

theorem C9_amended_scanner_bounds_witness :
    (0 : Nat) < (['/', '/', 'x'] : List Char).length ∧
    0 < skip_line_comment ['/', '/', 'x'] 0 ∧
    skip_line_comment ['/', '/', 'x'] 0 <= (['/', '/', 'x'] : List Char).length := by
  refine ⟨by decide, ?_⟩
  exact (C9_amended_scanner_bounds.1 ['/', '/', 'x'] 0 (by decide)).2.1

/-! ## The sort ordering (claims C7, C1) -/

theorem charListLt_asymm : ∀ (a b : List Char),
    charListLt a b = true → charListLt b a = false := by
  intro a
  induction a with
  | nil =>
    intro b h
    cases b with
    | nil => simp [charListLt] at h
    | cons y ys => rfl
  | cons x xs ih =>
    intro b h
    cases b with
    | nil => simp [charListLt] at h
    | cons y ys =>
      unfold charListLt at h ⊢
      by_cases h1 : x < y
      · rw [if_neg (asymm h1), if_pos h1]
      · rw [if_neg h1] at h
        by_cases h2 : y < x
        · rw [if_pos h2] at h
          exact absurd h (by simp)
        · rw [if_neg h2] at h
          rw [if_neg h2, if_neg h1]
          exact ih ys h

theorem charListLt_trans : ∀ (a b c : List Char),
    charListLt a b = true → charListLt b c = true → charListLt a c = true := by
  intro a
  induction a with
  | nil =>
    intro b c hab hbc
    cases b with
    | nil => simp [charListLt] at hab
    | cons y ys =>
      cases c with
      | nil => simp [charListLt] at hbc
      | cons z zs => rfl
  | cons x xs ih =>
    intro b c hab hbc
    cases b with
    | nil => simp [charListLt] at hab
    | cons y ys =>
      cases c with
      | nil => simp [charListLt] at hbc
      | cons z zs =>
        unfold charListLt at hab hbc ⊢
        by_cases h1 : x < y
        · by_cases h2 : y < z
          · rw [if_pos (lt_trans h1 h2)]
          · rw [if_neg h2] at hbc
            by_cases h3 : z < y
            · rw [if_pos h3] at hbc
              exact absurd hbc (by simp)
            · have hyz : y = z := le_antisymm (not_lt.mp h3) (not_lt.mp h2)
              subst hyz
              rw [if_pos h1]
        · rw [if_neg h1] at hab
          by_cases h4 : y < x
          · rw [if_pos h4] at hab
            exact absurd hab (by simp)
          · rw [if_neg h4] at hab
            have hxy : x = y := le_antisymm (not_lt.mp h4) (not_lt.mp h1)
            subst hxy
            by_cases h2 : x < z
            · rw [if_pos h2]
            · rw [if_neg h2] at hbc ⊢
              by_cases h3 : z < x
              · rw [if_pos h3] at hbc
                exact absurd hbc (by simp)
              · rw [if_neg h3] at hbc ⊢
                exact ih ys zs hab hbc

theorem charListLt_eq_of_not : ∀ (a b : List Char),
    charListLt a b = false → charListLt b a = false → a = b := by
  intro a
  induction a with
  | nil =>
    intro b h1 _
    cases b with
    | nil => rfl
    | cons y ys => simp [charListLt] at h1
  | cons x xs ih =>
    intro b h1 h2
    cases b with
    | nil => simp [charListLt] at h2
    | cons y ys =>
      unfold charListLt at h1 h2
      by_cases hxy : x < y
      · rw [if_pos hxy] at h1
        exact absurd h1 (by simp)
      · rw [if_neg hxy] at h1
        by_cases hyx : y < x
        · rw [if_pos hyx] at h2
          exact absurd h2 (by simp)
        · rw [if_neg hyx] at h1
          rw [if_neg hyx, if_neg hxy] at h2
          have hx : x = y := le_antisymm (not_lt.mp hyx) (not_lt.mp hxy)
          subst hx
          rw [ih ys h1 h2]

theorem pyStrLt_asymm (a b : String) (h : pyStrLt a b = true) : pyStrLt b a = false :=
  charListLt_asymm a.toList b.toList h

theorem pyStrLt_trans (a b c : String) (h1 : pyStrLt a b = true)
    (h2 : pyStrLt b c = true) : pyStrLt a c = true :=
  charListLt_trans a.toList b.toList c.toList h1 h2

theorem pyStr_eq_of_not (a b : String) (h1 : pyStrLt a b = false)
    (h2 : pyStrLt b a = false) : a = b :=
  String.ext (charListLt_eq_of_not a.toList b.toList h1 h2)

theorem pyStrNotLt_trans (a b c : String) (h1 : pyStrLt b a = false)
    (h2 : pyStrLt c b = false) : pyStrLt c a = false := by
  cases h3 : pyStrLt c a with
  | false => rfl
  | true =>
    exfalso
    cases h4 : pyStrLt a b with
    | true =>
      cases h5 : pyStrLt b c with
      | true =>
        have h6 := pyStrLt_trans a b c h4 h5
        have h7 := pyStrLt_asymm a c h6
        rw [h3] at h7
        exact absurd h7 (by simp)
      | false =>
        have hbc : b = c := pyStr_eq_of_not b c h5 h2
        subst hbc
        rw [h3] at h1
        exact absurd h1 (by simp)
    | false =>
      have hab : a = b := pyStr_eq_of_not a b h4 h1
      subst hab
      rw [h3] at h2
      exact absurd h2 (by simp)

theorem lexCombo_or {α : Type} (lt : α → α → Bool) (a b : α) (r1 r2 : Bool)
    (h : (r1 || r2) = true) : (lexCombo lt a b r1 || lexCombo lt b a r2) = true := by
  unfold lexCombo
  by_cases h1 : lt a b = true
  · rw [if_pos h1]
    rfl
  · by_cases h2 : lt b a = true
    · simp only [if_neg h1, if_pos h2]
      simp
    · simp only [if_neg h1, if_neg h2]
      exact h

theorem lexCombo_trans {α : Type} (lt : α → α → Bool)
    (ltTrans : ∀ x y z, lt x y = true → lt y z = true → lt x z = true)
    (eqOf : ∀ x y, lt x y = false → lt y x = false → x = y)
    (a b c : α) (r1 r2 r3 : Bool)
    (hr : r1 = true → r2 = true → r3 = true)
    (h1 : lexCombo lt a b r1 = true) (h2 : lexCombo lt b c r2 = true) :
    lexCombo lt a c r3 = true := by
  unfold lexCombo at *
  by_cases hab : lt a b = true
  · by_cases hbc : lt b c = true
    · rw [if_pos (ltTrans a b c hab hbc)]
    · rw [if_neg hbc] at h2
      by_cases hcb : lt c b = true
      · rw [if_pos hcb] at h2
        exact absurd h2 (by simp)
      · rw [if_neg hcb] at h2
        have hb : b = c := eqOf b c (by simpa using hbc) (by simpa using hcb)
        subst hb
        rw [if_pos hab]
  · rw [if_neg hab] at h1
    by_cases hba : lt b a = true
    · rw [if_pos hba] at h1
      exact absurd h1 (by simp)
    · rw [if_neg hba] at h1
      have ha : a = b := eqOf a b (by simpa using hab) (by simpa using hba)
      subst ha
      by_cases hac : lt a c = true
      · rw [if_pos hac]
      · rw [if_neg hac] at h2 ⊢
        by_cases hca : lt c a = true
        · rw [if_pos hca] at h2
          exact absurd h2 (by simp)
        · rw [if_neg hca] at h2 ⊢
          exact hr h1 h2

theorem natLtB_trans (x y z : Nat) (h1 : natLtB x y = true) (h2 : natLtB y z = true) :
    natLtB x z = true := by
  unfold natLtB at *
  simp at *
  omega

theorem natLtB_eqOf (x y : Nat) (h1 : natLtB x y = false) (h2 : natLtB y x = false) :
    x = y := by
  unfold natLtB at *
  simp at *
  omega

theorem tupLe_total (x y : Nat × String × Nat × String × String) :
    (tupLe x y || tupLe y x) = true := by
  unfold tupLe
  apply lexCombo_or
  apply lexCombo_or
  apply lexCombo_or
  apply lexCombo_or
  cases h : pyStrLt x.2.2.2.2 y.2.2.2.2 with
  | false => simp [h]
  | true =>
    have h2 := pyStrLt_asymm _ _ h
    simp [h2]

theorem tupLe_trans (x y z : Nat × String × Nat × String × String)
    (h1 : tupLe x y = true) (h2 : tupLe y z = true) : tupLe x z = true := by
  unfold tupLe at *
  refine lexCombo_trans natLtB natLtB_trans natLtB_eqOf _ _ _ _ _ _ ?_ h1 h2
  intro a1 a2
  refine lexCombo_trans pyStrLt pyStrLt_trans pyStr_eq_of_not _ _ _ _ _ _ ?_ a1 a2
  intro b1 b2
  refine lexCombo_trans natLtB natLtB_trans natLtB_eqOf _ _ _ _ _ _ ?_ b1 b2
  intro c1 c2
  refine lexCombo_trans pyStrLt pyStrLt_trans pyStr_eq_of_not _ _ _ _ _ _ ?_ c1 c2
  intro d1 d2
  rw [Bool.not_eq_true'] at d1 d2 ⊢
  exact pyStrNotLt_trans _ _ _ d1 d2

theorem entryLe_total (cp : Dict) (ps : Positions) :
    ∀ a b, entryLe cp ps a b ∨ entryLe cp ps b a := by
  intro a b
  have := tupLe_total (sortKeyOf cp ps a.1) (sortKeyOf cp ps b.1)
  rw [Bool.or_eq_true] at this
  exact this

theorem entryLe_trans (cp : Dict) (ps : Positions) :
    ∀ a b c, entryLe cp ps a b → entryLe cp ps b c → entryLe cp ps a c := by
  intro a b c h1 h2
  exact tupLe_trans _ _ _ h1 h2

/-- C7: with the sort policy enabled the reconciler's output catalog is
sorted by the tuple (0 if the key is in the corpus else 1, recorded source
path or "", recorded ordinal or the maximal sentinel, case-insensitive key,
key) - stated generally against the embedded comparator - and on the
spec's concrete instance (corpus order [k2, k1, k3] with positions
k2@(fileA,0), k1@(fileA,1), k3@(fileB,0), catalog [k3, k1, kExtra]) the
output key order is [k2, k1, k3, kExtra]. -/
theorem C7_sort_ordering :
    (∀ (json_file : String) (cp : Dict) (ps : Positions) (fl : Flags) (tr : Translator)
      (data : Dict), fl.sort_keys = true →
      List.Sorted (entryLe cp ps) (update_json json_file cp ps fl tr data).data) ∧
    (update_json "de.json" [("k2", "v2"), ("k1", "v1"), ("k3", "v3")]
      [("k2", ("fileA", 0)), ("k1", ("fileA", 1)), ("k3", ("fileB", 0))]
      ⟨true, false, true, false⟩ noTranslator
      [("k3", "t3"), ("k1", "t1"), ("kExtra", "tx")]).data =
      [("k2", "v2"), ("k1", "t1"), ("k3", "t3"), ("kExtra", "tx")] := by
  constructor
  · intro json_file cp ps fl tr data hsort
    unfold update_json
    dsimp only
    rw [hsort]
    simp only [ite_true, if_pos]
    exact @List.sorted_insertionSort _ (entryLe cp ps) (entryLeDecidable cp ps)
      ⟨entryLe_total cp ps⟩ ⟨entryLe_trans cp ps⟩ _
  · decide

theorem C7_sort_ordering_witness :
    (⟨true, false, true, false⟩ : Flags).sort_keys = true ∧
    List.Sorted (entryLe [("k2", "v2")] [])
      (update_json "x.json" [("k2", "v2")] [] ⟨true, false, true, false⟩
        noTranslator []).data :=
  ⟨rfl, C7_sort_ordering.1 "x.json" [("k2", "v2")] [] ⟨true, false, true, false⟩
    noTranslator [] rfl⟩

/-! ## Idempotence of the reconciler (claim C1) -/

/-- C1 counterexample: with auto-translate on, the `language` variable
mutated by `a`'s fallback makes `b` fail in run 1, while run 2 starts from
the original locale code and translates `b`: the second run adds a key and
changes the catalog, so idempotence does not hold for every policy
combination. -/
theorem C1_counterexample_translate_breaks_idempotence :
    (update_json "ab-cd.json" [("a", "va"), ("b", "vb")] [] ⟨false, false, true, true⟩
      trIdem []).data = [("a", "A")] ∧
    (update_json "ab-cd.json" [("a", "va"), ("b", "vb")] [] ⟨false, false, true, true⟩
      trIdem [("a", "A")]).data = [("a", "A"), ("b", "B")] ∧
    (update_json "ab-cd.json" [("a", "va"), ("b", "vb")] [] ⟨false, false, true, true⟩
      trIdem [("a", "A")]).counters.add = 1 := by
  exact ⟨by decide, by decide, by decide⟩

theorem addKeyStep_data_shape (fl : Flags) (tr : Translator) (st : AddState)
    (kv : String × String) :
    (addKeyStep fl tr st kv).1.data = st.data ∨
    ∃ v, (addKeyStep fl tr st kv).1.data = odSet st.data kv.1 v := by
  unfold addKeyStep
  by_cases hc : containsKey st.data kv.1 = true
  · rw [if_pos hc]
    exact Or.inl rfl
  · rw [if_neg hc]
    dsimp only
    repeat' split
    all_goals first
      | exact Or.inl rfl
      | exact Or.inr ⟨_, rfl⟩

theorem addKeyStep_no_abort (fl : Flags) (tr : Translator) (st : AddState)
    (kv : String × String) (hT : fl.auto_translate = false) :
    (addKeyStep fl tr st kv).2 = false := by
  unfold addKeyStep
  by_cases hc : containsKey st.data kv.1 = true
  · rw [if_pos hc]
  · rw [if_neg hc]
    dsimp only
    split
    · simp [hT]
    · rfl

theorem addKeyStep_ensures (fl : Flags) (tr : Translator) (st : AddState)
    (kv : String × String) (hT : fl.auto_translate = false)
    (hA : fl.auto_add = true) (hne : kv.2 ≠ "") :
    containsKey (addKeyStep fl tr st kv).1.data kv.1 = true := by
  unfold addKeyStep
  by_cases hc : containsKey st.data kv.1 = true
  · rw [if_pos hc]
    exact hc
  · rw [if_neg hc]
    dsimp only
    have hcond : (fl.auto_add && kv.2 != "") = true := by
      rw [hA]
      simpa [bne] using hne
    rw [if_pos hcond, if_neg (by rw [hT]; exact Bool.false_ne_true)]
    dsimp only
    rw [containsKey_odSet]
    simp

theorem addKeyStep_mono (fl : Flags) (tr : Translator) (st : AddState)
    (kv : String × String) (k : String) (h : containsKey st.data k = true) :
    containsKey (addKeyStep fl tr st kv).1.data k = true := by
  rcases addKeyStep_data_shape fl tr st kv with hs | ⟨v, hs⟩
  · rw [hs]; exact h
  · rw [hs, containsKey_odSet, h]
    rfl

theorem addKeyStep_nodup (fl : Flags) (tr : Translator) (st : AddState)
    (kv : String × String) (hnd : (keysOf st.data).Nodup) :
    (keysOf (addKeyStep fl tr st kv).1.data).Nodup := by
  rcases addKeyStep_data_shape fl tr st kv with hs | ⟨v, hs⟩
  · rw [hs]; exact hnd
  · rw [hs]
    by_cases hc : containsKey st.data kv.1 = true
    · rw [keysOf_odSet_of_contains _ _ _ hc]; exact hnd
    · rw [keysOf_odSet_of_not_contains _ _ _ (by simpa using hc)]
      rw [List.nodup_append]
      refine ⟨hnd, List.nodup_singleton _, ?_⟩
      rw [List.disjoint_singleton]
      intro hmem
      exact hc ((containsKey_iff_mem _ _).mpr hmem)

theorem addKeyStep_stable (fl : Flags) (tr : Translator) (st : AddState)
    (kv : String × String) (hT : fl.auto_translate = false)
    (hcov : fl.auto_add = true → kv.2 ≠ "" → containsKey st.data kv.1 = true) :
    (addKeyStep fl tr st kv).1.data = st.data ∧
    (addKeyStep fl tr st kv).1.counters.add = st.counters.add ∧
    (addKeyStep fl tr st kv).1.counters.remove = st.counters.remove ∧
    (addKeyStep fl tr st kv).2 = false := by
  unfold addKeyStep
  by_cases hc : containsKey st.data kv.1 = true
  · rw [if_pos hc]
    exact ⟨rfl, rfl, rfl, rfl⟩
  · rw [if_neg hc]
    dsimp only
    have hcond : (fl.auto_add && kv.2 != "") = false := by
      cases ha : fl.auto_add with
      | false => rfl
      | true =>
        cases hv : kv.2 != "" with
        | false => simp
        | true =>
          exfalso
          apply hc
          apply hcov ha
          intro he
          rw [he] at hv
          simp [bne] at hv
    rw [if_neg (by rw [hcond]; exact Bool.false_ne_true)]
    exact ⟨rfl, by cases hv : kv.2 == "" <;> simp [hv], by cases hv : kv.2 == "" <;> simp [hv],
      rfl⟩

theorem addPassGo_stable (fl : Flags) (tr : Translator) (corpus : List (String × String)) :
    ∀ (st : AddState), fl.auto_translate = false →
      (∀ kv ∈ corpus, fl.auto_add = true → kv.2 ≠ "" → containsKey st.data kv.1 = true) →
      (addPassGo fl tr corpus st).1.data = st.data ∧
      (addPassGo fl tr corpus st).1.counters.add = st.counters.add ∧
      (addPassGo fl tr corpus st).1.counters.remove = st.counters.remove ∧
      (addPassGo fl tr corpus st).2 = false := by
  induction corpus with
  | nil =>
    intro st _ _
    exact ⟨rfl, rfl, rfl, rfl⟩
  | cons kv rest ih =>
    intro st hT hcov
    have hstep := addKeyStep_stable fl tr st kv hT (hcov kv (List.mem_cons_self kv rest))
    unfold addPassGo
    cases hk : addKeyStep fl tr st kv with
    | mk st2 ab =>
      rw [hk] at hstep
      dsimp only at hstep
      obtain ⟨hd, hadd, hrem, hab⟩ := hstep
      subst hab
      dsimp only
      have ih2 := ih st2 hT (by
        intro kv2 hmem ha hv
        rw [hd]
        exact hcov kv2 (List.mem_cons_of_mem kv hmem) ha hv)
      refine ⟨?_, ?_, ?_, ih2.2.2.2⟩
      · rw [ih2.1, hd]
      · rw [ih2.2.1, hadd]
      · rw [ih2.2.2.1, hrem]

theorem addPassGo_mono (fl : Flags) (tr : Translator) (corpus : List (String × String)) :
    ∀ (st : AddState) (k : String), containsKey st.data k = true →
      containsKey (addPassGo fl tr corpus st).1.data k = true := by
  induction corpus with
  | nil => intro st k h; exact h
  | cons kv rest ih =>
    intro st k h
    unfold addPassGo
    cases hk : addKeyStep fl tr st kv with
    | mk st2 ab =>
      have h2 : containsKey st2.data k = true := by
        have := addKeyStep_mono fl tr st kv k h
        rw [hk] at this
        exact this
      cases ab with
      | true => exact h2
      | false => exact ih st2 k h2

theorem addPassGo_nodup (fl : Flags) (tr : Translator) (corpus : List (String × String)) :
    ∀ (st : AddState), (keysOf st.data).Nodup →
      (keysOf (addPassGo fl tr corpus st).1.data).Nodup := by
  induction corpus with
  | nil => intro st h; exact h
  | cons kv rest ih =>
    intro st h
    unfold addPassGo
    cases hk : addKeyStep fl tr st kv with
    | mk st2 ab =>
      have h2 : (keysOf st2.data).Nodup := by
        have := addKeyStep_nodup fl tr st kv h
        rw [hk] at this
        exact this
      cases ab with
      | true => exact h2
      | false => exact ih st2 h2

theorem addPassGo_covers (fl : Flags) (tr : Translator)
    (hT : fl.auto_translate = false) (hA : fl.auto_add = true) :
    ∀ (corpus : List (String × String)) (st : AddState) (kv : String × String),
      kv ∈ corpus → kv.2 ≠ "" →
      containsKey (addPassGo fl tr corpus st).1.data kv.1 = true := by
  intro corpus
  induction corpus with
  | nil =>
    intro st kv h
    simp at h
  | cons kv0 rest ih =>
    intro st kv hmem hne
    unfold addPassGo
    cases hk : addKeyStep fl tr st kv0 with
    | mk st2 ab =>
      have hab : ab = false := by
        have := addKeyStep_no_abort fl tr st kv0 hT
        rw [hk] at this
        exact this
      subst hab
      dsimp only
      rcases List.mem_cons.mp hmem with hmem | hmem
      · subst hmem
        have hcont : containsKey st2.data kv.1 = true := by
          have := addKeyStep_ensures fl tr st kv hT hA hne
          rw [hk] at this
          exact this
        exact addPassGo_mono fl tr rest st2 kv.1 hcont
      · exact ih st2 kv hmem hne

theorem removeFold_id_of_subset (fl : Flags) (corpus : Dict) :
    ∀ (S : List String) (d : Dict) (c : Counters),
      (∀ k ∈ S, containsKey corpus k = true) →
      S.foldl (removeKeyStep fl corpus) (d, c) = (d, c) := by
  intro S
  induction S with
  | nil => intro d c _; rfl
  | cons k rest ih =>
    intro d c h
    rw [List.foldl_cons]
    have hstep : removeKeyStep fl corpus (d, c) k = (d, c) := by
      unfold removeKeyStep
      rw [if_pos (h k (List.mem_cons_self k rest))]
    rw [hstep]
    exact ih d c (fun k2 hm => h k2 (List.mem_cons_of_mem k hm))

theorem removePass_id_of_subset (fl : Flags) (corpus : Dict) (d : Dict) (c : Counters)
    (h : ∀ k ∈ keysOf d, containsKey corpus k = true) :
    removePass fl corpus d c = (d, c) :=
  removeFold_id_of_subset fl corpus (keysOf d) d c h

theorem removeFold_noRemove (fl : Flags) (corpus : Dict) (hR : fl.auto_remove = false) :
    ∀ (S : List String) (d : Dict) (c : Counters),
      (S.foldl (removeKeyStep fl corpus) (d, c)).1 = d ∧
      (S.foldl (removeKeyStep fl corpus) (d, c)).2.remove = c.remove ∧
      (S.foldl (removeKeyStep fl corpus) (d, c)).2.add = c.add := by
  intro S
  induction S with
  | nil => intro d c; exact ⟨rfl, rfl, rfl⟩
  | cons k rest ih =>
    intro d c
    rw [List.foldl_cons]
    unfold removeKeyStep
    by_cases hc : containsKey corpus k = true
    · rw [if_pos hc]
      exact ih d c
    · rw [if_neg hc]
      dsimp only
      rw [if_neg (by rw [hR]; exact Bool.false_ne_true)]
      exact ih d _

theorem eraseP_append_not (l1 l2 : Dict) (p : (String × String) → Bool)
    (h : ∀ e ∈ l1, p e = false) : (l1 ++ l2).eraseP p = l1 ++ l2.eraseP p := by
  induction l1 with
  | nil => rfl
  | cons e rest ih =>
    rw [List.cons_append, List.eraseP_cons_of_neg (by simp [h e (List.mem_cons_self e rest)]),
      ih (fun e2 hm => h e2 (List.mem_cons_of_mem e hm)), List.cons_append]

theorem removeFold_filter (fl : Flags) (corpus : Dict) (hR : fl.auto_remove = true) :
    ∀ (suf pre : Dict) (c : Counters),
      (keysOf (pre ++ suf)).Nodup →
      (∀ k ∈ keysOf pre, containsKey corpus k = true) →
      ((keysOf suf).foldl (removeKeyStep fl corpus) (pre ++ suf, c)).1 =
        pre ++ suf.filter (fun e => containsKey corpus e.1) := by
  intro suf
  induction suf with
  | nil =>
    intro pre c _ _
    simp [keysOf]
  | cons e rest ih =>
    intro pre c hnd hpre
    show ((e.1 :: keysOf rest).foldl (removeKeyStep fl corpus) (pre ++ e :: rest, c)).1 = _
    rw [List.foldl_cons]
    by_cases hc : containsKey corpus e.1 = true
    · have hstep : removeKeyStep fl corpus (pre ++ e :: rest, c) e.1 = (pre ++ e :: rest, c) := by
        unfold removeKeyStep
        rw [if_pos hc]
      rw [hstep]
      have hre : pre ++ e :: rest = (pre ++ [e]) ++ rest := by simp
      have hpre2 : ∀ k ∈ keysOf (pre ++ [e]), containsKey corpus k = true := by
        intro k hm
        unfold keysOf at hm
        rw [List.map_append] at hm
        rcases List.mem_append.mp hm with hm | hm
        · exact hpre k hm
        · simp at hm
          rw [hm]
          exact hc
      have hnd2 : (keysOf ((pre ++ [e]) ++ rest)).Nodup := by
        rw [← hre]
        exact hnd
      rw [hre, ih (pre ++ [e]) c hnd2 hpre2]
      have hfc : List.filter (fun e => containsKey corpus e.1) (e :: rest) =
          e :: List.filter (fun e => containsKey corpus e.1) rest :=
        List.filter_cons_of_pos hc
      rw [hfc]
      simp
    · have hcf : containsKey corpus e.1 = false := by simpa using hc
      have hNotInPre : e.1 ∉ keysOf pre := by
        unfold keysOf at hnd
        rw [List.map_append] at hnd
        rw [List.nodup_append] at hnd
        intro hmem
        exact hnd.2.2 hmem (by simp [keysOf])
      have hstep : removeKeyStep fl corpus (pre ++ e :: rest, c) e.1 =
          (pre ++ rest,
            { (({ c with extra := c.extra + 1 }) : Counters) with
                remove := c.remove + 1 }) := by
        unfold removeKeyStep
        rw [if_neg hc]
        dsimp only
        rw [if_pos (by rw [hR])]
        have hdel : odDelete (pre ++ e :: rest) e.1 = pre ++ rest := by
          unfold odDelete
          rw [eraseP_append_not]
          · rw [List.eraseP_cons_of_pos (by simp)]
          · intro e2 he2
            cases hb : e2.1 == e.1 with
            | false => rfl
            | true =>
              exfalso
              apply hNotInPre
              rw [← eq_of_beq hb]
              exact List.mem_map_of_mem (fun x => x.1) he2
        rw [hdel]
      rw [hstep]
      have hnd3 : (keysOf (pre ++ rest)).Nodup := by
        unfold keysOf at hnd ⊢
        rw [List.map_append] at hnd ⊢
        refine List.Nodup.sublist ?_ hnd
        apply List.Sublist.append_left
        exact List.Sublist.cons e.1 (List.Sublist.refl _)
      rw [ih pre _ hnd3 hpre, List.filter_cons_of_neg (by simp [hcf])]

theorem removePass_filter (fl : Flags) (corpus : Dict) (d : Dict) (c : Counters)
    (hR : fl.auto_remove = true) (hnd : (keysOf d).Nodup) :
    (removePass fl corpus d c).1 = d.filter (fun e => containsKey corpus e.1) := by
  have := removeFold_filter fl corpus hR d [] c (by simpa using hnd) (by simp [keysOf])
  simpa using this

theorem removePass_keeps_corpus (fl : Flags) (corpus : Dict) (d : Dict) (c : Counters)
    (k : String) (hnd : (keysOf d).Nodup)
    (hcorp : containsKey corpus k = true) (hd : containsKey d k = true) :
    containsKey (removePass fl corpus d c).1 k = true := by
  cases hR : fl.auto_remove with
  | false =>
    unfold removePass
    rw [(removeFold_noRemove fl corpus hR (d.map (fun e => e.1)) d c).1]
    exact hd
  | true =>
    rw [removePass_filter fl corpus d c hR hnd]
    unfold containsKey at hd ⊢
    rw [List.any_eq_true] at hd ⊢
    obtain ⟨e, he, hek⟩ := hd
    refine ⟨e, ?_, hek⟩
    rw [List.mem_filter]
    refine ⟨he, ?_⟩
    rw [eq_of_beq hek]
    exact hcorp

theorem any_of_perm {l1 l2 : Dict} (p : (String × String) → Bool) (h : l1.Perm l2) :
    l1.any p = l2.any p := by
  cases ha : l2.any p with
  | true =>
    rw [List.any_eq_true] at ha ⊢
    obtain ⟨x, hx, hpx⟩ := ha
    exact ⟨x, h.mem_iff.mpr hx, hpx⟩
  | false =>
    rw [List.any_eq_false] at ha
    rw [List.any_eq_false]
    intro x hx
    exact ha x (h.mem_iff.mp hx)

theorem containsKey_insertionSort (r : (String × String) → (String × String) → Prop)
    [DecidableRel r] (d : Dict) (k : String) :
    containsKey (List.insertionSort r d) k = containsKey d k := by
  unfold containsKey
  exact any_of_perm _ (List.perm_insertionSort r d)

theorem nodup_keys_insertionSort (r : (String × String) → (String × String) → Prop)
    [DecidableRel r] (d : Dict) (hnd : (keysOf d).Nodup) :
    (keysOf (List.insertionSort r d)).Nodup := by
  have hp := (List.perm_insertionSort r d).map (fun e => e.1)
  exact hp.nodup_iff.mpr hnd

theorem removePass_noRemove (fl : Flags) (corpus : Dict) (d : Dict) (c : Counters)
    (hR : fl.auto_remove = false) :
    (removePass fl corpus d c).1 = d ∧
    (removePass fl corpus d c).2.remove = c.remove ∧
    (removePass fl corpus d c).2.add = c.add := by
  unfold removePass
  exact removeFold_noRemove fl corpus hR (d.map (fun e => e.1)) d c

theorem addPassGo_no_abort (fl : Flags) (tr : Translator)
    (corpus : List (String × String)) (hT : fl.auto_translate = false) :
    ∀ st, (addPassGo fl tr corpus st).2 = false := by
  induction corpus with
  | nil => intro st; rfl
  | cons kv rest ih =>
    intro st
    unfold addPassGo
    cases hk : addKeyStep fl tr st kv with
    | mk st2 ab =>
      have hab : ab = false := by
        have := addKeyStep_no_abort fl tr st kv hT
        rw [hk] at this
        exact this
      subst hab
      exact ih st2

theorem update_json_stable (json_file : String) (cp : Dict) (ps : Positions) (fl : Flags)
    (tr : Translator) (d : Dict)
    (hT : fl.auto_translate = false)
    (hcov : ∀ kv ∈ cp, fl.auto_add = true → kv.2 ≠ "" → containsKey d kv.1 = true)
    (hsub : fl.auto_remove = true → ∀ k ∈ keysOf d, containsKey cp k = true)
    (hsorted : fl.sort_keys = true → List.Sorted (entryLe cp ps) d) :
    (update_json json_file cp ps fl tr d).data = d ∧
    (update_json json_file cp ps fl tr d).counters.add = 0 ∧
    (update_json json_file cp ps fl tr d).counters.remove = 0 := by
  have hgo := addPassGo_stable fl tr cp ⟨d, counters0, languageOf json_file⟩ hT hcov
  unfold update_json addPass
  cases hk : addPassGo fl tr cp ⟨d, counters0, languageOf json_file⟩ with
  | mk st2 ab =>
    rw [hk] at hgo
    dsimp only at hgo
    obtain ⟨hd2, hadd2, hrem2, hab⟩ := hgo
    subst hab
    dsimp only
    have hremove : (removePass fl cp st2.data st2.counters).1 = st2.data ∧
        (removePass fl cp st2.data st2.counters).2.add = st2.counters.add ∧
        (removePass fl cp st2.data st2.counters).2.remove = st2.counters.remove := by
      cases hR : fl.auto_remove with
      | true =>
        have hid := removePass_id_of_subset fl cp st2.data st2.counters (by
          rw [hd2]
          exact hsub hR)
        rw [hid]
        exact ⟨rfl, rfl, rfl⟩
      | false =>
        have h1 := removePass_noRemove fl cp st2.data st2.counters hR
        exact ⟨h1.1, h1.2.2, h1.2.1⟩
    obtain ⟨hrd, hradd, hrrem⟩ := hremove
    cases hS : fl.sort_keys with
    | true =>
      rw [if_pos rfl]
      refine ⟨?_, ?_, ?_⟩
      · rw [hrd, hd2]
        exact (hsorted hS).insertionSort_eq
      · rw [hradd, hadd2]; rfl
      · rw [hrrem, hrem2]; rfl
    | false =>
      rw [if_neg Bool.false_ne_true]
      refine ⟨?_, ?_, ?_⟩
      · rw [hrd, hd2]
      · rw [hradd, hadd2]; rfl
      · rw [hrrem, hrem2]; rfl

theorem keysOf_mem_filter (corpus : Dict) (d : Dict) (k : String)
    (hm : k ∈ keysOf (d.filter (fun e => containsKey corpus e.1))) :
    containsKey corpus k = true := by
  unfold keysOf at hm
  rcases List.mem_map.mp hm with ⟨e, he, hek⟩
  rcases List.mem_filter.mp he with ⟨_, hpred⟩
  rw [← hek]
  exact hpred

theorem update_json_establishes (json_file : String) (cp : Dict) (ps : Positions)
    (fl : Flags) (tr : Translator) (d : Dict)
    (hT : fl.auto_translate = false) (hnd : (keysOf d).Nodup) :
    (∀ kv ∈ cp, fl.auto_add = true → kv.2 ≠ "" →
      containsKey (update_json json_file cp ps fl tr d).data kv.1 = true) ∧
    (fl.auto_remove = true →
      ∀ k ∈ keysOf (update_json json_file cp ps fl tr d).data, containsKey cp k = true) ∧
    (fl.sort_keys = true →
      List.Sorted (entryLe cp ps) (update_json json_file cp ps fl tr d).data) ∧
    (keysOf (update_json json_file cp ps fl tr d).data).Nodup := by
  unfold update_json addPass
  cases hk : addPassGo fl tr cp ⟨d, counters0, languageOf json_file⟩ with
  | mk st2 ab =>
    have hab : ab = false := by
      have := addPassGo_no_abort fl tr cp hT ⟨d, counters0, languageOf json_file⟩
      rw [hk] at this
      exact this
    subst hab
    dsimp only
    have hnd2 : (keysOf st2.data).Nodup := by
      have := addPassGo_nodup fl tr cp ⟨d, counters0, languageOf json_file⟩ hnd
      rw [hk] at this
      exact this
    have hRnodup : (keysOf (removePass fl cp st2.data st2.counters).1).Nodup := by
      cases hR : fl.auto_remove with
      | true =>
        rw [removePass_filter fl cp st2.data st2.counters hR hnd2]
        have hsub : (List.filter (fun e => containsKey cp e.1) st2.data).Sublist st2.data :=
          List.filter_sublist st2.data
        have hsubk : (keysOf (List.filter (fun e => containsKey cp e.1) st2.data)).Sublist
            (keysOf st2.data) := by
          unfold keysOf
          exact hsub.map (fun e => e.1)
        exact List.Nodup.sublist hsubk hnd2
      | false =>
        rw [(removePass_noRemove fl cp st2.data st2.counters hR).1]
        exact hnd2
    have hcov : ∀ kv ∈ cp, fl.auto_add = true → kv.2 ≠ "" →
        containsKey (removePass fl cp st2.data st2.counters).1 kv.1 = true := by
      intro kv hm hA hne
      apply removePass_keeps_corpus fl cp st2.data st2.counters kv.1 hnd2
      · unfold containsKey
        rw [List.any_eq_true]
        exact ⟨kv, hm, beq_self_eq_true kv.1⟩
      · have := addPassGo_covers fl tr hT hA cp ⟨d, counters0, languageOf json_file⟩ kv hm hne
        rw [hk] at this
        exact this
    have hsubset : fl.auto_remove = true →
        ∀ k ∈ keysOf (removePass fl cp st2.data st2.counters).1,
          containsKey cp k = true := by
      intro hR k hm
      rw [removePass_filter fl cp st2.data st2.counters hR hnd2] at hm
      exact keysOf_mem_filter cp st2.data k hm
    cases hS : fl.sort_keys with
    | true =>
      rw [if_pos rfl]
      refine ⟨?_, ?_, ?_, ?_⟩
      · intro kv hm hA hne
        rw [containsKey_insertionSort]
        exact hcov kv hm hA hne
      · intro hR k hm
        have hp0 : (List.insertionSort (entryLe cp ps)
              (removePass fl cp st2.data st2.counters).1).Perm
            (removePass fl cp st2.data st2.counters).1 :=
          List.perm_insertionSort (entryLe cp ps) _
        have hperm2 : (keysOf (List.insertionSort (entryLe cp ps)
              (removePass fl cp st2.data st2.counters).1)).Perm
            (keysOf (removePass fl cp st2.data st2.counters).1) := by
          unfold keysOf
          exact hp0.map (fun e => e.1)
        exact hsubset hR k (hperm2.mem_iff.mp hm)
      · intro _
        exact @List.sorted_insertionSort _ (entryLe cp ps) (entryLeDecidable cp ps)
          ⟨entryLe_total cp ps⟩ ⟨entryLe_trans cp ps⟩ _
      · exact nodup_keys_insertionSort (entryLe cp ps) _ hRnodup
    | false =>
      rw [if_neg Bool.false_ne_true]
      refine ⟨?_, ?_, ?_, ?_⟩
      · intro kv hm hA hne
        exact hcov kv hm hA hne
      · exact hsubset
      · intro h
        exact absurd h Bool.false_ne_true
      · exact hRnodup

/-- C1 (amended): with auto-translate disabled and a catalog whose keys are
unique, the reconciler is idempotent: running update_json a second time on
the catalog produced by the first run, with the same corpus, position index
and policy flags, leaves the catalog unchanged, performs no adds and no
removes, and serializes exactly the same bytes as the first run. (The
original claim quantified over all four policy flags; the counterexample
shows it fails when auto_translate is enabled, because the first run
mutates the locale code used for later keys while the second run starts
from the original one.) -/
theorem C1_amended_idempotence (json_file : String) (cp : Dict) (ps : Positions)
    (fl : Flags) (tr : Translator) (data : Dict)
    (hT : fl.auto_translate = false) (hnd : (keysOf data).Nodup) :
    (update_json json_file cp ps fl tr
        (update_json json_file cp ps fl tr data).data).data =
      (update_json json_file cp ps fl tr data).data ∧
    (update_json json_file cp ps fl tr
        (update_json json_file cp ps fl tr data).data).counters.add = 0 ∧
    (update_json json_file cp ps fl tr
        (update_json json_file cp ps fl tr data).data).counters.remove = 0 ∧
    serializeCatalog (update_json json_file cp ps fl tr
        (update_json json_file cp ps fl tr data).data).data =
      serializeCatalog (update_json json_file cp ps fl tr data).data := by
  obtain ⟨hcov, hsub, hsorted, _⟩ :=
    update_json_establishes json_file cp ps fl tr data hT hnd
  obtain ⟨h1, h2, h3⟩ := update_json_stable json_file cp ps fl tr
    (update_json json_file cp ps fl tr data).data hT hcov hsub hsorted
  exact ⟨h1, h2, h3, by rw [h1]⟩

theorem C1_amended_idempotence_witness :
    (⟨true, true, true, false⟩ : Flags).auto_translate = false ∧
    (keysOf [("a", "A")]).Nodup ∧
    ((update_json "pl-pl.json" [("b", "B"), ("a", "")] [("b", "f.js", 0)]
        ⟨true, true, true, false⟩ trIdem
        (update_json "pl-pl.json" [("b", "B"), ("a", "")] [("b", "f.js", 0)]
          ⟨true, true, true, false⟩ trIdem [("a", "A")]).data).data =
      (update_json "pl-pl.json" [("b", "B"), ("a", "")] [("b", "f.js", 0)]
        ⟨true, true, true, false⟩ trIdem [("a", "A")]).data ∧
    (update_json "pl-pl.json" [("b", "B"), ("a", "")] [("b", "f.js", 0)]
        ⟨true, true, true, false⟩ trIdem
        (update_json "pl-pl.json" [("b", "B"), ("a", "")] [("b", "f.js", 0)]
          ⟨true, true, true, false⟩ trIdem [("a", "A")]).data).counters.add = 0 ∧
    (update_json "pl-pl.json" [("b", "B"), ("a", "")] [("b", "f.js", 0)]
        ⟨true, true, true, false⟩ trIdem
        (update_json "pl-pl.json" [("b", "B"), ("a", "")] [("b", "f.js", 0)]
          ⟨true, true, true, false⟩ trIdem [("a", "A")]).data).counters.remove = 0 ∧
    serializeCatalog (update_json "pl-pl.json" [("b", "B"), ("a", "")] [("b", "f.js", 0)]
        ⟨true, true, true, false⟩ trIdem
        (update_json "pl-pl.json" [("b", "B"), ("a", "")] [("b", "f.js", 0)]
          ⟨true, true, true, false⟩ trIdem [("a", "A")]).data).data =
      serializeCatalog (update_json "pl-pl.json" [("b", "B"), ("a", "")] [("b", "f.js", 0)]
        ⟨true, true, true, false⟩ trIdem [("a", "A")]).data) :=
  ⟨by decide, by decide,
    C1_amended_idempotence "pl-pl.json" [("b", "B"), ("a", "")] [("b", "f.js", 0)]
      ⟨true, true, true, false⟩ trIdem [("a", "A")] (by decide) (by decide)⟩
